import Mathlib

/-!
Verification of the adaptive acquisition orchestrator of the
pricepulse-ai-tracker repository.

The development shallowly embeds the relevant TypeScript modules:

* `src/utils/proxyUtils.ts` (second half, the "advanced proxy rotation
  system"): per-proxy statistics, rate-limit suspension with exponential
  backoff, and best-available-proxy selection;
* `src/utils/cacheUtils.ts` (two variants exist in the repository: one
  deletes expired entries on read, the other does not);
* `src/utils/fetchUtils.ts` (`isBlockedResponse`) and
  `src/utils/scrapingStrategies.ts` (`standardScraping`'s payload checks);
* `src/utils/scraperService.ts` (`scrapeAmazonProduct`,
  `searchProductOnPlatforms`, `parsePrice`).

Numbers that are JavaScript `number`s carrying fractional values
(success rates, scores, prices) are modelled as rationals; timestamps
(`Date.now()` milliseconds) as naturals; network and DOM effects as
oracle inputs describing each attempt's outcome.  JavaScript string
operations (`includes`, `toLowerCase`, `trim`) are modelled on `List Char`.
-/

/-! ## JavaScript string primitives -/

/-- Does `l` begin with the pattern `pat`?  (Both as character lists.) -/
def charsAgree : List Char → List Char → Bool
  | [], _ => true
  | _ :: _, [] => false
  | a :: as, b :: bs => a == b && charsAgree as bs

/-- JavaScript `String.prototype.includes`: is `pat` a contiguous substring
of `l`?  Scans every suffix of `l`. -/
def charsContains (pat : List Char) : List Char → Bool
  | [] => charsAgree pat []
  | c :: t => charsAgree pat (c :: t) || charsContains pat (t : List Char)

/-- `hay.includes(pat)` on Lean strings. -/
def jsIncludes (hay pat : String) : Bool :=
  charsContains pat.toList hay.toList

/-- JavaScript whitespace (restricted to the code points the scraper's
inputs exercise: ASCII whitespace; NBSP is replaced before trimming in the
source, mirroring `priceString.replace(/ /g, ' ')`). -/
def isWsC (c : Char) : Bool :=
  c = ' ' || c = '\t' || c = '\n' || c = '\r' || c = '\x0b' || c = '\x0c'

/-- JavaScript `String.prototype.trim` on character lists. -/
def jsTrim (l : List Char) : List Char :=
  ((l.dropWhile isWsC).reverse.dropWhile isWsC).reverse

/-- JavaScript `String.prototype.toLowerCase` (inputs are ASCII). -/
def lowerL (l : List Char) : List Char :=
  l.map Char.toLower

/-! ## Intermediary Health Registry — `src/utils/proxyUtils.ts` (advanced
rotation system, second document in the file)

`ProxyStats` mirrors the `ProxyStats` interface (lines 190-204): counts,
response-time window, suspension timestamp, and the stored `successRate`
field.  `blockedPatterns` keeps `(platform, reason, timestamp)` records.
The `platformProxyMap` side table only steers per-platform preferences and
is not needed by any claim, so it is not carried in the state. -/

structure BlockedPattern where
  platform : String
  reason : String
  timestamp : Nat
deriving DecidableEq

structure ProxyStats where
  successCount : Nat
  failureCount : Nat
  lastSuccess : Option Nat
  lastFailure : Option Nat
  averageResponseTime : ℚ
  responseTimeData : List ℚ
  rateLimitedUntil : Option Nat
  blockedPatterns : List BlockedPattern
  successRate : ℚ

/-- `initializeProxies` entry for a fresh proxy (lines 222-238). -/
def initStats : ProxyStats :=
  { successCount := 0, failureCount := 0, lastSuccess := none,
    lastFailure := none, averageResponseTime := 0, responseTimeData := [],
    rateLimitedUntil := none, blockedPatterns := [], successRate := 0 }

/-- `recordProxySuccess(proxy, responseTime, platform?)` (lines 243-281).
The platform-map update is outside the per-proxy state.  `now` stands for
`Date.now()`/`new Date()`. -/
def recordProxySuccess (now : Nat) (responseTime : ℚ) (s : ProxyStats) :
    ProxyStats :=
  let successCount := s.successCount + 1
  let rtd0 := s.responseTimeData ++ [responseTime]
  let rtd := if rtd0.length > 10 then rtd0.drop 1 else rtd0
  let avg := rtd.foldl (· + ·) 0 / (rtd.length : ℚ)
  let total := successCount + s.failureCount
  { s with
    successCount := successCount, lastSuccess := some now,
    responseTimeData := rtd, averageResponseTime := avg,
    successRate :=
      if total > 0 then (successCount : ℚ) / (total : ℚ) else 0 }

/-- `markProxyRateLimited(proxy, platform?)` (lines 335-376).  The filter
condition reproduces the source's operator precedence: the 30-minute
recency test binds only to the `'blocked'` disjunct
(`a || b || c && d` parses as `a || b || (c && d)`). -/
def markProxyRateLimited (now : Nat) (s : ProxyStats) : ProxyStats :=
  let recentRateLimits :=
    (s.blockedPatterns.filter fun bp =>
      jsIncludes bp.reason "rate limit" ||
      jsIncludes bp.reason "captcha" ||
      (jsIncludes bp.reason "blocked" &&
        decide (now - bp.timestamp < 30 * 60 * 1000))).length
  let backoffMinutes := min (2 ^ recentRateLimits) 120
  { s with rateLimitedUntil := some (now + backoffMinutes * 60 * 1000) }

/-- `recordProxyFailure(proxy, platform?, reason?, statusCode?)`
(lines 286-329).  A pattern is recorded, and the rate-limit detection
runs, only when both `platform` and `reason` are supplied. -/
def recordProxyFailure (now : Nat) (platform reason : Option String)
    (statusCode : Option Nat) (s : ProxyStats) : ProxyStats :=
  let failureCount := s.failureCount + 1
  let total := s.successCount + failureCount
  let s1 := { s with
    failureCount := failureCount, lastFailure := some now,
    successRate :=
      if total > 0 then (s.successCount : ℚ) / (total : ℚ) else 0 }
  match platform, reason with
  | some pf, some rs =>
    let recordedReason := match statusCode with
      | some code => rs ++ " (" ++ toString code ++ ")"
      | none => rs
    let bps0 := s1.blockedPatterns ++ [⟨pf, recordedReason, now⟩]
    let bps := if bps0.length > 20 then bps0.drop 1 else bps0
    let s2 := { s1 with blockedPatterns := bps }
    let isRateLimited :=
      (statusCode == some 429 || statusCode == some 403) ||
      (jsIncludes rs "rate limit" || jsIncludes rs "captcha" ||
       jsIncludes rs "blocked" || jsIncludes rs "forbidden")
    if isRateLimited then markProxyRateLimited now s2 else s2
  | _, _ => s1

/-- One call against a proxy's statistics, for reasoning about arbitrary
`recordProxySuccess`/`recordProxyFailure` call sequences. -/
inductive ProxyOp where
  | success (now : Nat) (responseTime : ℚ)
  | failure (now : Nat) (platform reason : Option String)
      (statusCode : Option Nat)

def applyProxyOp (s : ProxyStats) : ProxyOp → ProxyStats
  | .success now rt => recordProxySuccess now rt s
  | .failure now pf rs code => recordProxyFailure now pf rs code s

def applyProxyOps (ops : List ProxyOp) (s : ProxyStats) : ProxyStats :=
  ops.foldl applyProxyOp s

/-- The run behind the suspension-window claims: consecutive failures of
one proxy, platform `"amazon"`, reason `"rate limit"`, no status code,
one minute apart (the k-th failure happens at `(k-1)*60000` ms). -/
def rateLimitRun : Nat → ProxyStats
  | 0 => initStats
  | n + 1 =>
    recordProxyFailure (n * 60000) (some "amazon") (some "rate limit")
      none (rateLimitRun n)

/-- The backoff window, in minutes, that the source computes at the k-th
consecutive matching failure (`min(2^recentRateLimits, 120)` with the
pattern list capped at 20 entries). -/
def windowMinutes (k : Nat) : Nat :=
  min (2 ^ min k 20) 120

/-- `isProxyRateLimited(proxy)` (lines 381-392):
`stats.rateLimitedUntil > new Date()`. -/
def isProxyRateLimited (stats : String → ProxyStats) (now : Nat)
    (p : String) : Bool :=
  match (stats p).rateLimitedUntil with
  | none => false
  | some t => now < t

/-- Score of an available proxy in `getBestAvailableProxy`
(lines 434-465): 70% success rate, response-time scale, recency bonus. -/
def proxyScore (stats : String → ProxyStats) (now : Nat) (p : String) : ℚ :=
  let st := stats p
  let successScore := st.successRate * 70
  let responseTimeScore : ℚ :=
    if st.responseTimeData.length > 0 then
      let avgTime : ℚ :=
        if st.averageResponseTime = 0 then 2000 else st.averageResponseTime
      max 0 (min 30 (30 - (avgTime - 500) / 150))
    else 15
  let recencyBonus : ℚ :=
    match st.lastSuccess with
    | some t =>
      let minutesSince : ℚ := ((now : ℚ) - (t : ℚ)) / 60000
      if minutesSince < 30 then 10 * (1 - minutesSince / 30) else 0
    | none => 0
  successScore + responseTimeScore + recencyBonus

/-- Sort key used when every proxy is rate limited (lines 426-430):
`proxyStats[p].rateLimitedUntil?.getTime() || 0`. -/
def suspensionKey (stats : String → ProxyStats) (p : String) : Nat :=
  ((stats p).rateLimitedUntil).getD 0

/-- `getBestAvailableProxy(proxies)` (lines 413-472).  Rate-limited
proxies are filtered out; if none remain, the list is sorted by
`rateLimitedUntil` ascending and the first entry returned; otherwise the
candidates are scored and the highest score wins.  JavaScript's
`Array.prototype.sort` is stable, as is `List.insertionSort`.  Returns
`none` exactly on an empty candidate list (where the source would yield
`undefined`). -/
def availableProxies (stats : String → ProxyStats) (now : Nat)
    (proxies : List String) : List String :=
  proxies.filter fun p =>
    match (stats p).rateLimitedUntil with
    | none => true
    | some t => t < now

def getBestAvailableProxy (stats : String → ProxyStats) (now : Nat)
    (proxies : List String) : Option String :=
  let availableProxies := availableProxies stats now proxies
  if availableProxies.isEmpty then
    (proxies.insertionSort fun a b =>
      suspensionKey stats a ≤ suspensionKey stats b).head?
  else
    let scored := availableProxies.map fun p => (p, proxyScore stats now p)
    ((scored.insertionSort fun a b => b.2 ≤ a.2).head?).map (·.1)

/-! ## Anti-block content classifier — `src/utils/scrapingStrategies.ts`
(`standardScraping`, lines 92-115) and `src/utils/fetchUtils.ts`
(`isBlockedResponse`, lines 147-188) -/

inductive Classification where
  | challengeDetected
  | tooShort
  | ok
deriving DecidableEq

/-- The challenge markers `standardScraping` probes with case-sensitive
`html.includes(...)` (lines 95-100). -/
def standardScrapingMarkers : List String :=
  ["captcha", "robot check", "verify you are a human", "automated access",
   "unusual traffic", "security challenge"]

/-- The case-sensitive marker probe of `standardScraping`
(`html.includes(...)` over the marker list). -/
def htmlChallengeMarker (html : String) : Bool :=
  standardScrapingMarkers.any fun m => jsIncludes html m

/-- The payload checks of `standardScraping` once a 2xx response body is
in hand: the challenge-marker probe runs first (lines 94-107), the
`!html || html.length < 1000` too-short check second (lines 109-115),
anything else is accepted (line 120). -/
def standardScrapingClassify (html : String) : Classification :=
  if htmlChallengeMarker html then
    .challengeDetected
  else if html = "" || html.length < 1000 then
    .tooShort
  else
    .ok

/-- The blocking markers of `isBlockedResponse` (lines 161-171), matched
against the lower-cased body. -/
def blockedResponseMarkers : List String :=
  ["captcha", "robot check", "security check", "verify you are a human",
   "automated access", "unusual traffic", "suspicious activity",
   "access denied", "temporarily blocked"]

/-- The case-insensitive marker probe of `isBlockedResponse`
(`bodyText.toLowerCase().includes(pattern)` over the marker list). -/
def bodyBlockedMarker (body : String) : Bool :=
  blockedResponseMarkers.any fun m =>
    jsIncludes (String.mk (lowerL body.toList)) m

/-- `isBlockedResponse(response)` (lines 147-188): blocking status codes
first, then the case-insensitive marker scan over the body, then the
`bodyText.length < 500` too-short test. -/
def isBlockedResponse (statusOk : Bool) (status : Nat) (body : String) :
    Bool :=
  if !statusOk && (status == 403 || status == 429 || status == 503) then
    true
  else if bodyBlockedMarker body then
    true
  else if body.length < 500 then
    true
  else
    false

/-! ## Result cache — `src/utils/cacheUtils.ts`

Two copies of this module live in the repository.  Variant A (the copy
without per-function `try`/`catch`) deletes an expired entry during the
read (`getCachedProduct`, lines 64-85).  Variant B (the copy with error
handling, provided as `getCachedProduct` lines 131-151 of its file)
returns `null` for an expired entry but leaves the store untouched,
deferring removal to `clearExpiredCache`; its `saveProductCache`
(lines 61-91) drops the oldest half of the entries only when
`localStorage.setItem` signals `QuotaExceededError`.

A JavaScript object keyed by strings is modelled as an association list
in insertion order (`Object.entries` order); overwriting keeps the
original position. -/

structure CEntry (α : Type) where
  data : α
  timestamp : Nat
deriving DecidableEq

abbrev CacheStore (α : Type) : Type := List (String × CEntry α)

def lookupKey (store : CacheStore α) (k : String) : Option (CEntry α) :=
  (store.find? fun e => e.1 = k).map (·.2)

def setKey : CacheStore α → String → CEntry α → CacheStore α
  | [], k, e => [(k, e)]
  | (k', e') :: t, k, e =>
    if k' = k then (k, e) :: t else (k', e') :: setKey t k e

def eraseKey : CacheStore α → String → CacheStore α
  | [], _ => []
  | (k', e') :: t, k => if k' = k then t else (k', e') :: eraseKey t k

def PRODUCT_CACHE_TTL : Nat := 30 * 60 * 1000

def COMPARISON_CACHE_TTL : Nat := 60 * 60 * 1000

/-- Variant A read: `Date.now() - cachedItem.timestamp > TTL` expires the
entry, which is deleted and the shrunken cache saved before `null` is
returned; a fresh entry's data is returned unchanged (the
`lastUpdated` string-to-`Date` re-hydration is the identity here). -/
def cacheGet (ttl now : Nat) (q : String) (store : CacheStore α) :
    Option α × CacheStore α :=
  match lookupKey store q with
  | none => (none, store)
  | some e =>
    if now - e.timestamp > ttl then (none, eraseKey store q)
    else (some e.data, store)

/-- Shared write path: `cache[query] = { data, timestamp: Date.now() }`
then save.  No entry bound is checked. -/
def cachePut (now : Nat) (q : String) (d : α) (store : CacheStore α) :
    CacheStore α :=
  setKey store q ⟨d, now⟩

/-- Variant A `getCachedProduct(query)` (cacheUtils.ts lines 64-85). -/
def getCachedProduct (now : Nat) (q : String) (store : CacheStore α) :
    Option α × CacheStore α :=
  cacheGet PRODUCT_CACHE_TTL now q store

/-- `cacheProduct(query, data)` (cacheUtils.ts lines 90-99). -/
def cacheProduct (now : Nat) (q : String) (d : α) (store : CacheStore α) :
    CacheStore α :=
  cachePut now q d store

/-- Variant A `getCachedComparison(query)` (cacheUtils.ts
lines 104-125). -/
def getCachedComparison (now : Nat) (q : String) (store : CacheStore α) :
    Option α × CacheStore α :=
  cacheGet COMPARISON_CACHE_TTL now q store

/-- `cacheComparison(query, data)` (cacheUtils.ts lines 130-139). -/
def cacheComparison (now : Nat) (q : String) (d : α)
    (store : CacheStore α) : CacheStore α :=
  cachePut now q d store

/-- Variant B `getCachedProduct(asin)` (lines 131-151 of the second
copy): `Date.now() - cached.timestamp < TTL` keeps the entry; otherwise
`null` is returned and the store is left as it is (the function performs
no write). -/
def getCachedProductB (now : Nat) (q : String) (store : CacheStore α) :
    Option α :=
  match lookupKey store q with
  | none => none
  | some e => if now - e.timestamp < PRODUCT_CACHE_TTL then some e.data
              else none

/-- Variant B `saveProductCache(cache)` (lines 61-91 of the second copy):
on `QuotaExceededError` the entries are sorted by timestamp ascending and
only `entries.slice(Math.floor(entries.length / 2))` — the newest half —
is kept; without the quota error the store is saved unchanged. -/
def saveProductCacheB (quotaExceeded : Bool) (store : CacheStore α) :
    CacheStore α :=
  if quotaExceeded then
    (store.insertionSort fun a b => a.2.timestamp ≤ b.2.timestamp).drop
      (store.length / 2)
  else store

/-! ## Price parsing — `parsePrice` (scraperService.ts, lines 2234-2300
of the full service; a reduced variant at lines 279-293 of the smaller
copy)

The regex `([^\d,.]+)?([0-9,]+(?:\.[0-9]+)?)([^\d,.]+)?` is evaluated
with JavaScript `String.match` semantics: the leftmost start position
wins, quantifiers are greedy.  For this pattern greediness needs no
backtracking: group 1 is the maximal run of characters that are not
digits, commas or dots; a match at a position exists exactly when that
run is followed by a digit or comma; group 2 then takes the maximal
digit/comma run plus an optional dot-and-digits fraction, and group 3
the maximal following non-digit/comma/dot run. -/

def isG2C (c : Char) : Bool := c.isDigit || c = ','

def isOtherC (c : Char) : Bool := !(c.isDigit || c = ',' || c = '.')

/-- The optional `(?:\.[0-9]+)?` tail of group 2: returns the consumed
fraction characters and what remains. -/
def fracPart (r2 : List Char) : List Char × List Char :=
  match r2 with
  | c2 :: rest =>
    if c2 = '.' then
      let ds := rest.takeWhile Char.isDigit
      if ds.isEmpty then ([], r2)
      else ('.' :: ds, rest.dropWhile Char.isDigit)
    else ([], r2)
  | [] => ([], r2)

/-- Try the price regex anchored at the current position.  Returns the
three capture groups; an unmatched optional group is the empty list
(the `+` quantifier makes a participating group non-empty). -/
def matchTriple (s : List Char) :
    Option (List Char × List Char × List Char) :=
  let g1 := s.takeWhile isOtherC
  let r1 := s.dropWhile isOtherC
  match r1 with
  | [] => none
  | c :: _ =>
    if isG2C c then
      let g2a := r1.takeWhile isG2C
      let r2 := r1.dropWhile isG2C
      let fr := fracPart r2
      some (g1, g2a ++ fr.1, fr.2.takeWhile isOtherC)
    else none

/-- `String.match`: try each start position left to right. -/
def findTriple : List Char → Option (List Char × List Char × List Char)
  | [] => none
  | c :: t =>
    match matchTriple (c :: t) with
    | some m => some m
    | none => findTriple t

def natOfDigits (l : List Char) : Nat :=
  l.foldl (fun n c => 10 * n + (c.toNat - 48)) 0

/-- The digits after the decimal point, when the remainder starts with
one. -/
def fracDigits (rest : List Char) : List Char :=
  match rest with
  | c :: r => if c = '.' then r.takeWhile Char.isDigit else []
  | [] => []

/-- `parseFloat` on the comma-stripped group 2 (digits with at most one
dot-and-digits fraction), as an exact rational. -/
def parseFloatQ (l : List Char) : ℚ :=
  let ip := l.takeWhile Char.isDigit
  let fp := fracDigits (l.dropWhile Char.isDigit)
  (natOfDigits ip : ℚ) + (natOfDigits fp : ℚ) / (10 : ℚ) ^ fp.length

def nbspChar : Char := Char.ofNat 160

/-- `parsePrice(priceString)` of the full scraper service
(lines 2234-2300), step for step: NBSP replacement and trim; the regex
match; `match[1]?.trim() || match[3]?.trim() || null`; the rupee
override on the whole string; the (unreachable in practice) hyphen-range
split of group 2; the currency-code fallbacks; the `$` default; the
final `Rs`-to-rupee normalisation; `parseFloat` of the comma-stripped
value. -/
def parsePrice (s : String) : Option ℚ × Option String :=
  if s = "" then (none, none) else
  let normalized :=
    jsTrim (s.toList.map fun c => if c = nbspChar then ' ' else c)
  match findTriple normalized with
  | none => (none, none)
  | some (g1, g2, g3) =>
    let cur0 : Option (List Char) :=
      let t1 := jsTrim g1
      if t1 ≠ [] then some t1
      else
        let t3 := jsTrim g3
        if t3 ≠ [] then some t3 else none
    let priceValue0 := g2.filter fun c => c ≠ ','
    let cur1 :=
      if charsContains "₹".toList normalized ||
         charsContains "rs.".toList (lowerL normalized) ||
         charsContains "inr".toList (lowerL normalized) then
        some "₹".toList
      else cur0
    let priceValue :=
      if charsContains ['-'] priceValue0 then
        jsTrim (priceValue0.takeWhile fun c => c ≠ '-')
      else priceValue0
    let cur2 := match cur1 with
      | some c => some c
      | none =>
        if charsContains "USD".toList normalized ||
           charsContains "$".toList normalized then some "$".toList
        else if charsContains "EUR".toList normalized ||
                charsContains "€".toList normalized then some "€".toList
        else if charsContains "GBP".toList normalized ||
                charsContains "£".toList normalized then some "£".toList
        else if charsContains "INR".toList normalized ||
                charsContains "Rs.".toList normalized ||
                charsContains "₹".toList normalized then some "₹".toList
        else none
    let cur3 := match cur2 with
      | none => if priceValue ≠ [] then some "$".toList else none
      | some c => some c
    let cur4 := match cur3 with
      | some c =>
        if c = "₹".toList || charsContains "rs".toList (lowerL c) then
          some "₹".toList
        else some c
      | none => none
    let price :=
      if priceValue ≠ [] then some (parseFloatQ priceValue) else none
    (price, cur4.map fun l => String.mk l)

/-! ## Single-product acquisition — `scrapeAmazonProduct`
(scraperService.ts, lines 106-394)

The network, parsing and DOM effects of each acquisition method are
oracle inputs.  An `AttemptOutcome.throws` models a thrown exception
(caught by the surrounding handler), `.returns r` a settled call whose
value is `r` (`null` when `r = none`). -/

inductive AttemptOutcome (α : Type) where
  | throws
  | returns (r : Option α)
deriving DecidableEq

structure Product where
  name : String
  imageUrl : String
  currentPrice : ℚ
  previousPrice : ℚ
  currency : String
  asin : String
deriving DecidableEq

/-- The terminal placeholder record (lines 375-388): the "mock" product
returned when every method failed.  The metadata map and `lastUpdated`
timestamp carry no claim-relevant data and are omitted. -/
def placeholderProduct (asin : String) : Product :=
  { name := "Product information unavailable",
    imageUrl :=
      "https://via.placeholder.com/300x300?text=Product+Image+Unavailable",
    currentPrice := 0, previousPrice := 0, currency := "$", asin := asin }

/-- Oracle describing one invocation of `scrapeAmazonProduct`:
URL validation and ASIN extraction results, the cache probe, then one
outcome per attempt of each acquisition method. -/
structure ScrapeWorld where
  isAmazonUrl : Bool
  extractedAsin : Option String
  cachedProduct : Option Product
  oxylabsOutcome : AttemptOutcome Product
  amazonStrategyOutcomes : List (AttemptOutcome Product)
  standardOutcomes : List (Option Product)
  serverOutcome : AttemptOutcome Product

/-- Second method (lines 176-217): each proxy iteration runs the Amazon
strategy and the parser; a returned product ends the loop, a `null`
parse moves to the next proxy, and a thrown error aborts the remaining
iterations because the `try` wraps the whole loop. -/
def runAmazonStrategyLoop : List (AttemptOutcome Product) → Option Product
  | [] => none
  | .throws :: _ => none
  | .returns (some p) :: _ => some p
  | .returns none :: rest => runAmazonStrategyLoop rest

/-- Third method (lines 224-347): the `try` sits inside the loop, so a
failed iteration (of any kind) just advances to the next proxy. -/
def runStandardLoop : List (Option Product) → Option Product
  | [] => none
  | some p :: _ => some p
  | none :: rest => runStandardLoop rest

/-- `scrapeAmazonProduct(url)` (lines 106-394): URL validation and ASIN
extraction return `null` on failure; a cache hit short-circuits; then
the Oxylabs API, the Amazon-specific strategy over the proxy list, the
standard proxy rotation, and server-side scraping are tried in order;
when everything failed the placeholder record is returned. -/
def scrapeAmazonProduct (w : ScrapeWorld) : Option Product :=
  if !w.isAmazonUrl then none
  else match w.extractedAsin with
  | none => none
  | some asin =>
    match w.cachedProduct with
    | some p => some p
    | none =>
      match w.oxylabsOutcome with
      | .returns (some p) => some p
      | _ =>
        match runAmazonStrategyLoop w.amazonStrategyOutcomes with
        | some p => some p
        | none =>
          match runStandardLoop w.standardOutcomes with
          | some p => some p
          | none =>
            match w.serverOutcome with
            | .returns (some p) => some p
            | _ => some (placeholderProduct asin)

/-! ## Comparison search — `searchProductOnPlatforms`
(scraperService.ts, lines 654-1183) -/

structure CItem where
  marketplace : String
  productName : String
  price : ℚ
  currency : String
  url : String
  isLowestPrice : Bool
  inStock : Bool
deriving DecidableEq

/-- An item as a scraper hands it over: the `isLowestPrice` flag is still
unset (`undefined`, modelled `false`). -/
def clearFlag (i : CItem) : CItem :=
  { i with isLowestPrice := false }

/-- `validResults` (lines 902-916): the Amazon page item when its price
is positive, then every fulfilled, non-null platform promise in platform
order. -/
def collectValid (amazonItem : Option CItem)
    (platformOutcomes : List (Option CItem)) : List CItem :=
  (match amazonItem with
   | some a => if a.price > 0 then [a] else []
   | none => []) ++ platformOutcomes.reduceOption

/-- `results.sort((a, b) => a.price - b.price)`: JavaScript's stable sort
with an ascending price comparator. -/
def sortByPrice (l : List CItem) : List CItem :=
  l.insertionSort fun a b => a.price ≤ b.price

/-- `.map((item, index) => ({ ...item, isLowestPrice: index === 0 }))`
(lines 921-924 and 1166-1169). -/
def markLowest : List CItem → List CItem
  | [] => []
  | h :: t => { h with isLowestPrice := true } :: t.map clearFlag

/-- `Math.min(...results.map(item => item.price))` for the Oxylabs branch
(line 685); only applied to non-empty lists. -/
def minimumPrice : List CItem → ℚ
  | [] => 0
  | h :: t => t.foldl (fun acc i => min acc i.price) h.price

/-- The estimated ("mock") comparison items built when every method
failed (lines 972-1163).  The prices derive from `Math.random()` draws
and the category regexes over the product name; both are oracle inputs
here.  The first four marketplaces are always pushed; the remaining ones
depend on the category tests and one more random draw. -/
structure MockInput where
  searchTerm : String
  productName : String
  amazonPrice : ℚ
  flipkartPrice : ℚ
  cromaPrice : ℚ
  cromaStock : Bool
  reliancePrice : ℚ
  relianceStock : Bool
  isElectronic : Bool
  vijayPrice : ℚ
  vijayStock : Bool
  tataPrice : ℚ
  tataStock : Bool
  isGrocery : Bool
  bigbasketPrice : ℚ
  bigbasketStock : Bool
  swiggyPrice : ℚ
  swiggyStock : Bool
  jioPrice : ℚ
  jioStock : Bool
  isHomeAppliance : Bool
  sargamPrice : ℚ
  sargamStock : Bool
  isFashion : Bool
  myntraPrice : ℚ
  myntraStock : Bool
  meeshoPrice : ℚ
  includeSnapdeal : Bool
  snapdealPrice : ℚ
  snapdealStock : Bool

def mockItem (marketplace : String) (m : MockInput) (price : ℚ)
    (inStock : Bool) : CItem :=
  { marketplace := marketplace, productName := m.productName,
    price := price, currency := "₹", url := m.searchTerm,
    isLowestPrice := false, inStock := inStock }

/-- `mockResults` after all conditional pushes (lines 1009-1163). -/
def mockResults (m : MockInput) : List CItem :=
  [mockItem "Amazon" m m.amazonPrice true,
   mockItem "Flipkart" m m.flipkartPrice true,
   mockItem "Croma" m m.cromaPrice m.cromaStock,
   mockItem "Reliance Digital" m m.reliancePrice m.relianceStock] ++
  (if m.isElectronic then
    [mockItem "Vijay Sales" m m.vijayPrice m.vijayStock,
     mockItem "Tata CLiQ" m m.tataPrice m.tataStock] else []) ++
  (if m.isGrocery then
    [mockItem "BigBasket" m m.bigbasketPrice m.bigbasketStock,
     mockItem "Swiggy Instamart" m m.swiggyPrice m.swiggyStock,
     mockItem "JioMart" m m.jioPrice m.jioStock] else []) ++
  (if m.isHomeAppliance then
    [mockItem "Sargam Electronics" m m.sargamPrice m.sargamStock] else []) ++
  (if m.isFashion then
    [mockItem "Myntra" m m.myntraPrice m.myntraStock,
     mockItem "Meesho" m m.meeshoPrice true] else []) ++
  (if m.includeSnapdeal then
    [mockItem "Snapdeal" m m.snapdealPrice m.snapdealStock] else [])

/-- Oracle for one `searchProductOnPlatforms` invocation. -/
structure SearchWorld where
  searchTerm : String
  oxylabsOutcome : AttemptOutcome (List CItem)
  amazonItem : Option CItem
  platformOutcomes : List (Option CItem)
  serverOutcome : AttemptOutcome (List CItem)
  mock : MockInput

/-- `searchProductOnPlatforms(productName, brand?, model?)`
(lines 654-1183), threading the comparison cache.  A cached result is
returned at once (lines 662-667).  The Oxylabs comparison succeeds only
with a non-empty result list, which is flagged via price equality with
the minimum and cached (lines 679-698); an empty result throws into the
same handler as an API error.  The client-side fallback collects settled
platform promises, sorts, flags index 0 and caches (lines 898-933).  The
server-side fallback returns its list when non-empty (lines 938-961).
Otherwise the mock items are sorted and flagged but deliberately not
cached (lines 966-1173). -/
def searchProductOnPlatforms (w : SearchWorld) (now : Nat)
    (cache : CacheStore (List CItem)) :
    List CItem × CacheStore (List CItem) :=
  match getCachedComparison now w.searchTerm cache with
  | (some res, cache') => (res, cache')
  | (none, cache') =>
    let clientAndBelow : List CItem × CacheStore (List CItem) :=
      let validResults := collectValid w.amazonItem w.platformOutcomes
      if validResults.length > 0 then
        let marked := markLowest (sortByPrice validResults)
        (marked, cacheComparison now w.searchTerm marked cache')
      else
        let mockPath : List CItem × CacheStore (List CItem) :=
          (markLowest (sortByPrice (mockResults w.mock)), cache')
        match w.serverOutcome with
        | .returns (some res) =>
          if res.length > 0 then
            (res, cacheComparison now w.searchTerm res cache')
          else mockPath
        | _ => mockPath
    match w.oxylabsOutcome with
    | .returns (some res) =>
      if res.length > 0 then
        let lowest := minimumPrice res
        let marked := res.map fun i =>
          { i with isLowestPrice := i.price = lowest }
        (marked, cacheComparison now w.searchTerm marked cache')
      else clientAndBelow
    | _ => clientAndBelow

/-! ## Auxiliary predicates used in the statements -/

/-- Did an attempt fail to deliver a value (it threw, or settled with
`null`)? -/
def returnedNothing : AttemptOutcome α → Bool
  | .returns (some _) => false
  | _ => true

/-- Did a list-valued attempt fail to deliver a non-empty list? -/
def returnedNoItems : AttemptOutcome (List CItem) → Bool
  | .returns (some l) => l.isEmpty
  | _ => true

def flaggedItems (l : List CItem) : List CItem :=
  l.filter (·.isLowestPrice)

/-- A non-empty list of decimal digit characters. -/
def digitsNE (l : List Char) : Prop :=
  l ≠ [] ∧ ∀ c ∈ l, c.isDigit = true

/-- A product store grown by 101 consecutive writes under distinct keys
(entry `i` is written at time `i`). -/
def grownProductStore : CacheStore Nat :=
  (List.range 101).foldl (fun st i => cacheProduct i (toString i) i st) []

/-- A ≥1000-character payload whose challenge marker is upper-case. -/
def upperCasePayload : String :=
  String.mk (List.replicate 993 'x' ++ "CAPTCHA".toList)

/-- Concrete mock-input oracle for witnesses. -/
def mockInputExample : MockInput :=
  { searchTerm := "q", productName := "p", amazonPrice := 10,
    flipkartPrice := 9, cromaPrice := 12, cromaStock := true,
    reliancePrice := 11, relianceStock := true, isElectronic := false,
    vijayPrice := 0, vijayStock := true, tataPrice := 0, tataStock := true,
    isGrocery := false, bigbasketPrice := 0, bigbasketStock := true,
    swiggyPrice := 0, swiggyStock := true, jioPrice := 0, jioStock := true,
    isHomeAppliance := false, sargamPrice := 0, sargamStock := true,
    isFashion := false, myntraPrice := 0, myntraStock := true,
    meeshoPrice := 0, includeSnapdeal := false, snapdealPrice := 0,
    snapdealStock := true }

/-- Concrete comparison item for witnesses. -/
def cItemExample (m : String) (price : ℚ) : CItem :=
  { marketplace := m, productName := "p", price := price,
    currency := "₹", url := "u", isLowestPrice := false, inStock := true }

/-- Witness world for the partially-successful comparison search: the
hosted API throws, two of four platform branches succeed. -/
def searchWorldTwoOfFour : SearchWorld :=
  { searchTerm := "q", oxylabsOutcome := AttemptOutcome.throws,
    amazonItem := none,
    platformOutcomes := [some (cItemExample "Flipkart" 5), none,
      some (cItemExample "Meesho" 3), none],
    serverOutcome := AttemptOutcome.returns none,
    mock := mockInputExample }

/-- Witness world for the all-methods-failed comparison search. -/
def searchWorldAllFailed : SearchWorld :=
  { searchTerm := "q", oxylabsOutcome := AttemptOutcome.throws,
    amazonItem := none,
    platformOutcomes := [none, none, none, none],
    serverOutcome := AttemptOutcome.throws,
    mock := mockInputExample }

/-! # Theorems -/

/-! ## C2 — stored success rate -/

lemma successRate_applyProxyOp_bounds (s : ProxyStats) (op : ProxyOp) :
    0 ≤ (applyProxyOp s op).successRate ∧
      (applyProxyOp s op).successRate ≤ 1 := by
  have hdiv : ∀ a b : Nat, a ≤ b → 0 < b →
      0 ≤ (a : ℚ) / (b : ℚ) ∧ (a : ℚ) / (b : ℚ) ≤ 1 := by
    intro a b hab hb
    constructor
    · positivity
    · rw [div_le_one (by exact_mod_cast hb)]
      exact_mod_cast hab
  cases op with
  | success now rt =>
    simp only [applyProxyOp, recordProxySuccess]
    split
    · exact hdiv _ _ (Nat.le_add_right _ _) (by omega)
    · omega
  | failure now pf rs code =>
    have hbase : 0 ≤ (if s.successCount + (s.failureCount + 1) > 0 then
          (s.successCount : ℚ) / ((s.successCount + (s.failureCount + 1) : ℕ) : ℚ)
        else 0) ∧
        (if s.successCount + (s.failureCount + 1) > 0 then
          (s.successCount : ℚ) / ((s.successCount + (s.failureCount + 1) : ℕ) : ℚ)
        else 0) ≤ 1 := by
      split
      · exact hdiv _ _ (by omega) (by omega)
      · omega
    simp only [applyProxyOp, recordProxyFailure]
    cases pf with
    | none => exact hbase
    | some p =>
      cases rs with
      | none => exact hbase
      | some r =>
        simp only [markProxyRateLimited]
        split <;> exact hbase

lemma successRate_applyProxyOps_bounds (ops : List ProxyOp)
    (s : ProxyStats) (h0 : 0 ≤ s.successRate) (h1 : s.successRate ≤ 1) :
    0 ≤ (applyProxyOps ops s).successRate ∧
      (applyProxyOps ops s).successRate ≤ 1 := by
  induction ops generalizing s with
  | nil => exact ⟨h0, h1⟩
  | cons op rest ih =>
    have hstep := successRate_applyProxyOp_bounds s op
    exact ih (applyProxyOp s op) hstep.1 hstep.2

/-- C2 (amended): after any sequence of `recordProxySuccess` /
`recordProxyFailure` calls starting from a fresh entry, the stored
`successRate` stays within the closed interval `[0, 1]`; the source
computes `successCount / (successCount + failureCount)` (no `+ 1` in the
denominator), so the rate does reach `1`. -/
theorem C2_successRate_stays_in_closed_unit_interval (ops : List ProxyOp) :
    0 ≤ (applyProxyOps ops initStats).successRate ∧
      (applyProxyOps ops initStats).successRate ≤ 1 :=
  successRate_applyProxyOps_bounds ops initStats (by simp [initStats])
    (by simp [initStats])

/-- C2 counterexample: a single successful call already drives the stored
`successRate` to exactly `1`, so it does not stay inside `[0, 1)`. -/
theorem C2_counterexample_rate_hits_one :
    (applyProxyOps [ProxyOp.success 0 100] initStats).successRate = 1 := by
  simp [applyProxyOps, applyProxyOp, recordProxySuccess, initStats]

/-! ## C3 — suspension backoff windows -/

lemma jsIncludes_rl_self : jsIncludes "rate limit" "rate limit" = true := by
  decide

set_option maxRecDepth 4000 in
lemma recordProxyFailure_rl_eq (now : Nat) (s : ProxyStats) :
    recordProxyFailure now (some "amazon") (some "rate limit") none s =
      markProxyRateLimited now
        { s with
          failureCount := s.failureCount + 1,
          lastFailure := some now,
          successRate :=
            if s.successCount + (s.failureCount + 1) > 0 then
              (s.successCount : ℚ) /
                ((s.successCount + (s.failureCount + 1) : ℕ) : ℚ)
            else 0,
          blockedPatterns :=
            if (s.blockedPatterns ++
                [BlockedPattern.mk "amazon" "rate limit" now]).length > 20 then
              (s.blockedPatterns ++
                [BlockedPattern.mk "amazon" "rate limit" now]).drop 1
            else s.blockedPatterns ++
                [BlockedPattern.mk "amazon" "rate limit" now] } :=
  rfl

lemma markProxyRateLimited_until (now : Nat) (s : ProxyStats)
    (hreasons : ∀ bp ∈ s.blockedPatterns, bp.reason = "rate limit") :
    (markProxyRateLimited now s).rateLimitedUntil =
      some (now + min (2 ^ s.blockedPatterns.length) 120 * 60 * 1000) := by
  have hfilter : s.blockedPatterns.filter (fun bp =>
      jsIncludes bp.reason "rate limit" ||
      jsIncludes bp.reason "captcha" ||
      (jsIncludes bp.reason "blocked" &&
        decide (now - bp.timestamp < 30 * 60 * 1000))) =
      s.blockedPatterns := by
    refine List.filter_eq_self.mpr fun bp hbp => ?_
    rw [hreasons bp hbp, jsIncludes_rl_self]
    simp
  simp only [markProxyRateLimited, hfilter]

lemma markProxyRateLimited_patterns (now : Nat) (s : ProxyStats) :
    (markProxyRateLimited now s).blockedPatterns = s.blockedPatterns :=
  rfl

lemma rateLimitRun_patterns (n : Nat) :
    (rateLimitRun n).blockedPatterns.length = min n 20 ∧
    ∀ bp ∈ (rateLimitRun n).blockedPatterns, bp.reason = "rate limit" := by
  induction n with
  | zero => simp [rateLimitRun, initStats]
  | succ n ih =>
    rw [show rateLimitRun (n + 1) =
        recordProxyFailure (n * 60000) (some "amazon") (some "rate limit")
          none (rateLimitRun n) from rfl,
      recordProxyFailure_rl_eq, markProxyRateLimited_patterns]
    set old := (rateLimitRun n).blockedPatterns with hold
    have hnew : ∀ bp ∈ old ++
        [BlockedPattern.mk "amazon" "rate limit" (n * 60000)],
        bp.reason = "rate limit" := by
      intro bp hbp
      rcases List.mem_append.mp hbp with h | h
      · exact ih.2 bp h
      · simp only [List.mem_singleton] at h
        rw [h]
    by_cases hlen : (old ++
        [BlockedPattern.mk "amazon" "rate limit" (n * 60000)]).length > 20
    · simp only [if_pos hlen]
      constructor
      · have h20 : old.length = 20 := by
          have := ih.1
          simp only [List.length_append, List.length_singleton] at hlen
          omega
        simp only [List.length_drop, List.length_append,
          List.length_singleton, h20]
        omega
      · exact fun bp hbp => hnew bp (List.mem_of_mem_drop hbp)
    · simp only [if_neg hlen]
      constructor
      · have := ih.1
        simp only [List.length_append, List.length_singleton] at hlen ⊢
        omega
      · exact hnew

/-- C3 (amended): on consecutive failures of one proxy with reason
`"rate limit"` (one minute apart, all inside a 30-minute span), the k-th
failure suspends the proxy until `min(2^min(k,20), 120)` minutes after
that failure: the exponent counts the stored matching failure patterns —
including the pattern of the current failure, with `'rate limit'` and
`'captcha'` reasons counted regardless of age because the 30-minute test
binds only to the `'blocked'` disjunct — so the windows double from
2 minutes, increase strictly only up to the 120-minute cap (reached at
the 7th failure), and stay at 120 minutes afterwards. -/
theorem C3_suspension_window_formula :
    (∀ n, (rateLimitRun (n + 1)).rateLimitedUntil =
      some (n * 60000 + windowMinutes (n + 1) * 60 * 1000)) ∧
    (∀ k, 1 ≤ k → k ≤ 6 → windowMinutes k < windowMinutes (k + 1)) ∧
    (∀ k, 7 ≤ k → windowMinutes k = 120) := by
  refine ⟨fun n => ?_, fun k h1 h6 => ?_, fun k h7 => ?_⟩
  · rw [show rateLimitRun (n + 1) =
        recordProxyFailure (n * 60000) (some "amazon") (some "rate limit")
          none (rateLimitRun n) from rfl,
      recordProxyFailure_rl_eq]
    have hpat := rateLimitRun_patterns n
    have hreasons : ∀ bp ∈
        (if ((rateLimitRun n).blockedPatterns ++
            [BlockedPattern.mk "amazon" "rate limit" (n * 60000)]).length > 20
         then ((rateLimitRun n).blockedPatterns ++
            [BlockedPattern.mk "amazon" "rate limit" (n * 60000)]).drop 1
         else (rateLimitRun n).blockedPatterns ++
            [BlockedPattern.mk "amazon" "rate limit" (n * 60000)]),
        bp.reason = "rate limit" := by
      have hnew : ∀ bp ∈ (rateLimitRun n).blockedPatterns ++
          [BlockedPattern.mk "amazon" "rate limit" (n * 60000)],
          bp.reason = "rate limit" := by
        intro bp hbp
        rcases List.mem_append.mp hbp with h | h
        · exact hpat.2 bp h
        · simp only [List.mem_singleton] at h
          rw [h]
      split
      · exact fun bp hbp => hnew bp (List.mem_of_mem_drop hbp)
      · exact hnew
    rw [markProxyRateLimited_until _ _ hreasons]
    have hlen : (if ((rateLimitRun n).blockedPatterns ++
        [BlockedPattern.mk "amazon" "rate limit" (n * 60000)]).length > 20
       then ((rateLimitRun n).blockedPatterns ++
          [BlockedPattern.mk "amazon" "rate limit" (n * 60000)]).drop 1
       else (rateLimitRun n).blockedPatterns ++
          [BlockedPattern.mk "amazon" "rate limit" (n * 60000)]).length =
        min (n + 1) 20 := by
      have := hpat.1
      split <;>
        simp_all [List.length_drop, List.length_append] <;> omega
    rw [hlen]
    have hw : min (2 ^ min (n + 1) 20) 120 = windowMinutes (n + 1) := by
      have : min (min (n + 1) 20) 20 = min (n + 1) 20 := by omega
      simp [windowMinutes, this]
    rw [hw]
  · interval_cases k <;> decide
  · have h720 : 7 ≤ min k 20 := by omega
    have : (128 : ℕ) ≤ 2 ^ min k 20 :=
      le_trans (by norm_num) (Nat.pow_le_pow_right (by norm_num) h720)
    simp only [windowMinutes]
    omega

/-- C3 counterexample: the 7th and the 8th consecutive rate-limit
failures (one minute apart, so all within a 30-minute window) both
produce a 120-minute suspension window — the windows are not strictly
increasing. -/
theorem C3_counterexample_window_plateau :
    (rateLimitRun 7).rateLimitedUntil = some (6 * 60000 + 120 * 60000) ∧
    (rateLimitRun 8).rateLimitedUntil = some (7 * 60000 + 120 * 60000) := by
  constructor <;> decide

/-- Witness for C3: the formula at the 3rd failure, a strict window
increase from the 2nd to the 3rd failure, and the 120-minute plateau at
the 10th. -/
theorem C3_suspension_window_formula_witness :
    (rateLimitRun 3).rateLimitedUntil =
      some (2 * 60000 + windowMinutes 3 * 60 * 1000) ∧
    windowMinutes 2 < windowMinutes 3 ∧ windowMinutes 10 = 120 :=
  ⟨C3_suspension_window_formula.1 2,
   C3_suspension_window_formula.2.1 2 (by decide) (by decide),
   C3_suspension_window_formula.2.2 10 (by decide)⟩

/-! ## C4 — proxy selection -/

lemma head_mem_of_ne_nil {l : List α} (h : l ≠ []) :
    ∀ x, l.head? = some x → x ∈ l := by
  cases l with
  | nil => simp
  | cons a t =>
    intro x hx
    simp only [List.head?] at hx
    rw [← Option.some_inj.mp hx]
    exact List.mem_cons_self a t

/-- C4: with at least one non-suspended candidate available, the
selected proxy is never a suspended one; and when every candidate is
suspended, `getBestAvailableProxy` still returns a proxy from the list,
namely one whose `rateLimitedUntil` timestamp is minimal (its suspension
expires soonest). -/
theorem C4_selection_excludes_suspended (stats : String → ProxyStats)
    (now : Nat) (proxies : List String) :
    (availableProxies stats now proxies ≠ [] →
      ∀ p, getBestAvailableProxy stats now proxies = some p →
        isProxyRateLimited stats now p = false) ∧
    ((∀ q ∈ proxies, isProxyRateLimited stats now q = true) →
      proxies ≠ [] →
      ∃ p, getBestAvailableProxy stats now proxies = some p ∧
        p ∈ proxies ∧
        ∀ q ∈ proxies, suspensionKey stats p ≤ suspensionKey stats q) := by
  constructor
  · intro hav p hp
    have hne : ¬ (availableProxies stats now proxies).isEmpty := by
      simpa [List.isEmpty_iff] using hav
    simp only [getBestAvailableProxy, if_neg hne] at hp
    set scored := (availableProxies stats now proxies).map
      (fun p => (p, proxyScore stats now p)) with hscored
    rcases Option.map_eq_some'.mp hp with ⟨pair, hhead, hfst⟩
    have hscne : scored ≠ [] := by
      rw [hscored]
      simpa using hav
    have hsortne : (scored.insertionSort fun a b => b.2 ≤ a.2) ≠ [] := by
      intro hnil
      have hp := List.perm_insertionSort
        (fun a b : String × ℚ => b.2 ≤ a.2) scored
      rw [hnil] at hp
      exact hscne (List.Perm.nil_eq hp).symm
    have hmem := head_mem_of_ne_nil hsortne pair hhead
    have hmem2 : pair ∈ scored :=
      ((List.perm_insertionSort _ scored).mem_iff).mp hmem
    rw [hscored] at hmem2
    rcases List.mem_map.mp hmem2 with ⟨q, hq, hpair⟩
    have hq' : q ∈ proxies ∧ (match (stats q).rateLimitedUntil with
        | none => true
        | some t => decide (t < now)) = true := by
      simpa [availableProxies, List.mem_filter] using hq
    have hpq : p = q := by rw [← hfst, ← hpair]
    subst hpq
    rcases h : (stats p).rateLimitedUntil with _ | t
    · simp [isProxyRateLimited, h]
    · have := hq'.2
      rw [h] at this
      simp only [decide_eq_true_eq] at this
      simp only [isProxyRateLimited, h, decide_eq_false_iff_not]
      omega
  · intro hsusp hne
    have hav : availableProxies stats now proxies = [] := by
      refine List.filter_eq_nil_iff.mpr fun q hq => ?_
      have := hsusp q hq
      rcases h : (stats q).rateLimitedUntil with _ | t
      · simp [isProxyRateLimited, h] at this
      · simp only [isProxyRateLimited, h, decide_eq_true_eq] at this
        simp only [h, Bool.not_eq_true, decide_eq_false_iff_not]
        omega
    have hiemp : (availableProxies stats now proxies).isEmpty := by
      simp [hav]
    letI rkey : String → String → Prop :=
      fun a b => suspensionKey stats a ≤ suspensionKey stats b
    haveI : IsTotal String rkey := ⟨fun a b => le_total _ _⟩
    haveI : IsTrans String rkey := ⟨fun a b c => le_trans⟩
    have hperm := List.perm_insertionSort rkey proxies
    have hsorted := List.sorted_insertionSort rkey proxies
    have hsortne : proxies.insertionSort rkey ≠ [] := by
      intro hnil
      rw [hnil] at hperm
      exact hne (List.Perm.nil_eq hperm).symm
    rcases hcons : proxies.insertionSort rkey with _ | ⟨p, rest⟩
    · exact absurd hcons hsortne
    refine ⟨p, ?_, ?_, ?_⟩
    · simp only [getBestAvailableProxy, if_pos hiemp]
      rw [show (proxies.insertionSort fun a b =>
          suspensionKey stats a ≤ suspensionKey stats b) =
          proxies.insertionSort rkey from rfl, hcons]
      rfl
    · have : p ∈ proxies.insertionSort rkey := by
        rw [hcons]; exact List.mem_cons_self _ _
      exact hperm.mem_iff.mp this
    · intro q hq
      have hq' : q ∈ proxies.insertionSort rkey := hperm.mem_iff.mpr hq
      rw [hcons] at hq'
      rcases List.mem_cons.mp hq' with h | h
      · rw [h]
      · rw [hcons] at hsorted
        exact List.rel_of_sorted_cons hsorted q h

/-- Witness for C4: a registry with two fresh (unsuspended) proxies for
the first part; a registry with both proxies suspended (until times 100
and 200 at `now = 0`) for the graceful-degradation part. -/
theorem C4_selection_excludes_suspended_witness :
    (availableProxies (fun _ => initStats) 0 ["p1", "p2"] ≠ []) ∧
    (∀ p, getBestAvailableProxy (fun _ => initStats) 0 ["p1", "p2"] =
        some p →
      isProxyRateLimited (fun _ => initStats) 0 p = false) ∧
    (∃ p, getBestAvailableProxy
        (fun q => if q = "a" then
            { initStats with rateLimitedUntil := some 100 }
          else { initStats with rateLimitedUntil := some 200 }) 0
        ["a", "b"] = some p ∧
      p ∈ ["a", "b"] ∧
      ∀ q ∈ ["a", "b"],
        suspensionKey (fun q => if q = "a" then
            { initStats with rateLimitedUntil := some 100 }
          else { initStats with rateLimitedUntil := some 200 }) p ≤
        suspensionKey (fun q => if q = "a" then
            { initStats with rateLimitedUntil := some 100 }
          else { initStats with rateLimitedUntil := some 200 }) q) :=
  ⟨by decide,
   (C4_selection_excludes_suspended (fun _ => initStats) 0
      ["p1", "p2"]).1 (by decide),
   (C4_selection_excludes_suspended _ 0 ["a", "b"]).2 (by decide)
      (by decide)⟩

/-! ## C5 — payload classifier rule order -/

/-- C5 (amended): both payload classifiers test the challenge markers
before the length rule.  In `standardScraping` a payload containing a
marker (matched case-sensitively) classifies as a challenge regardless
of its length; only marker-free payloads are then length-checked against
the 1000-character threshold, and everything else is accepted.
`isBlockedResponse` behaves the same way on 2xx responses with its
case-insensitive marker list and 500-character threshold. -/
theorem C5_markers_checked_before_length (html body : String) :
    (htmlChallengeMarker html = true →
      standardScrapingClassify html = Classification.challengeDetected) ∧
    (htmlChallengeMarker html = false → html.length < 1000 →
      standardScrapingClassify html = Classification.tooShort) ∧
    (htmlChallengeMarker html = false → 1000 ≤ html.length →
      standardScrapingClassify html = Classification.ok) ∧
    (bodyBlockedMarker body = true →
      isBlockedResponse true 200 body = true) ∧
    (bodyBlockedMarker body = false → body.length < 500 →
      isBlockedResponse true 200 body = true) ∧
    (bodyBlockedMarker body = false → 500 ≤ body.length →
      isBlockedResponse true 200 body = false) := by
  refine ⟨fun hm => ?_, fun hm hlen => ?_, fun hm hlen => ?_,
    fun hm => ?_, fun hm hlen => ?_, fun hm hlen => ?_⟩
  · simp [standardScrapingClassify, hm]
  · simp [standardScrapingClassify, hm, hlen]
  · have hne : html ≠ "" := by
      intro h
      rw [h] at hlen
      simp at hlen
    simp [standardScrapingClassify, hm, hne,
      show ¬ html.length < 1000 from not_lt.mpr hlen]
  · simp [isBlockedResponse, hm]
  · simp [isBlockedResponse, hm, hlen]
  · simp [isBlockedResponse, hm,
      show ¬ body.length < 500 from not_lt.mpr hlen]

set_option maxRecDepth 40000 in
/-- C5 counterexample: the 7-character payload `"captcha"` is far below
the length threshold yet classifies as a challenge, not as too-short —
the marker rule runs first; and a 1000-character payload containing only
the upper-case marker `"CAPTCHA"` is accepted by `standardScraping`
(case-sensitive matching) while `isBlockedResponse` flags it
(case-insensitive matching). -/
theorem C5_counterexample_short_challenge_payload :
    "captcha".length < 1000 ∧
    standardScrapingClassify "captcha" = Classification.challengeDetected ∧
    standardScrapingClassify "captcha" ≠ Classification.tooShort ∧
    standardScrapingClassify upperCasePayload = Classification.ok ∧
    isBlockedResponse true 200 upperCasePayload = true := by
  refine ⟨by decide, by decide, by decide, by decide, by decide⟩

/-- Witness for C5 at concrete payloads: a marker payload, a short
marker-free payload, and the same short payload through
`isBlockedResponse`. -/
theorem C5_markers_checked_before_length_witness :
    (htmlChallengeMarker "captcha" = true ∧
      standardScrapingClassify "captcha" =
        Classification.challengeDetected) ∧
    (htmlChallengeMarker "xy" = false ∧ "xy".length < 1000 ∧
      standardScrapingClassify "xy" = Classification.tooShort) ∧
    (bodyBlockedMarker "xy" = false ∧ "xy".length < 500 ∧
      isBlockedResponse true 200 "xy" = true) :=
  ⟨⟨by decide,
    (C5_markers_checked_before_length "captcha" "xy").1 (by decide)⟩,
   ⟨by decide, by decide,
    (C5_markers_checked_before_length "xy" "xy").2.1 (by decide)
      (by decide)⟩,
   ⟨by decide, by decide,
    (C5_markers_checked_before_length "xy" "xy").2.2.2.2.1 (by decide)
      (by decide)⟩⟩

/-! ## C6 / C7 — result cache -/

lemma lookupKey_setKey_self (st : CacheStore α) (k : String)
    (e : CEntry α) : lookupKey (setKey st k e) k = some e := by
  induction st with
  | nil => simp [setKey, lookupKey, List.find?]
  | cons h t ih =>
    by_cases hk : h.1 = k
    · cases h with
      | mk k' e' =>
        simp only at hk
        simp [setKey, hk, lookupKey, List.find?]
    · cases h with
      | mk k' e' =>
        simp only at hk
        simp only [setKey, if_neg hk]
        simpa [lookupKey, List.find?, hk] using ih

lemma lookupKey_setKey_ne (st : CacheStore α) (k k' : String)
    (e : CEntry α) (hne : k' ≠ k) :
    lookupKey (setKey st k e) k' = lookupKey st k' := by
  have hkk : k ≠ k' := Ne.symm hne
  induction st with
  | nil => simp [setKey, lookupKey, List.find?, hkk]
  | cons h t ih =>
    cases h with
    | mk k0 e0 =>
      by_cases hk : k0 = k
      · subst hk
        simp [setKey, lookupKey, List.find?, hkk]
      · simp only [setKey, if_neg hk]
        by_cases hk' : k0 = k'
        · simp [lookupKey, List.find?, hk']
        · simp only [lookupKey, List.find?] at ih ⊢
          simp [hk', ih]

lemma lookupKey_isSome_iff (st : CacheStore α) (k : String) :
    (lookupKey st k).isSome ↔ k ∈ st.map Prod.fst := by
  induction st with
  | nil => simp [lookupKey, List.find?]
  | cons h t ih =>
    cases h with
    | mk k0 e0 =>
      by_cases hk : k0 = k
      · simp [lookupKey, List.find?, hk]
      · simp only [lookupKey, List.find?] at ih ⊢
        simp [hk, Ne.symm hk, ih]

lemma setKey_length (st : CacheStore α) (k : String) (e : CEntry α) :
    (setKey st k e).length =
      if (lookupKey st k).isSome then st.length else st.length + 1 := by
  induction st with
  | nil => simp [setKey, lookupKey, List.find?]
  | cons h t ih =>
    cases h with
    | mk k0 e0 =>
      by_cases hk : k0 = k
      · simp [setKey, hk, lookupKey, List.find?]
      · simp only [setKey, if_neg hk, List.length_cons]
        rw [show lookupKey ((k0, e0) :: t) k = lookupKey t k from by
            simp [lookupKey, List.find?, hk], ih]
        split <;> omega

lemma mem_keys_setKey (st : CacheStore α) (k x : String) (e : CEntry α) :
    x ∈ (setKey st k e).map Prod.fst → x ∈ st.map Prod.fst ∨ x = k := by
  induction st with
  | nil =>
    intro h
    right
    simpa [setKey] using h
  | cons hd t ih =>
    cases hd with
    | mk k0 e0 =>
      by_cases hk : k0 = k
      · subst hk
        intro h
        simp only [setKey, eq_self_iff_true, if_true, List.map_cons,
          List.mem_cons] at h
        rcases h with h1 | h1
        · exact Or.inr h1
        · refine Or.inl ?_
          rw [List.map_cons]
          exact List.mem_cons_of_mem _ h1
      · intro h
        simp only [setKey, if_neg hk, List.map_cons, List.mem_cons] at h
        rcases h with h1 | h1
        · refine Or.inl ?_
          rw [List.map_cons]
          exact List.mem_cons.mpr (Or.inl h1)
        · rcases ih h1 with h2 | h2
          · refine Or.inl ?_
            rw [List.map_cons]
            exact List.mem_cons_of_mem _ h2
          · exact Or.inr h2

lemma setKey_keys_nodup (st : CacheStore α) (k : String) (e : CEntry α)
    (h : (st.map Prod.fst).Nodup) :
    ((setKey st k e).map Prod.fst).Nodup := by
  induction st with
  | nil => simp [setKey]
  | cons hd t ih =>
    cases hd with
    | mk k0 e0 =>
      simp only [List.map_cons, List.nodup_cons] at h
      by_cases hk : k0 = k
      · subst hk
        simpa [setKey] using h
      · simp only [setKey, if_neg hk, List.map_cons, List.nodup_cons]
        refine ⟨?_, ih h.2⟩
        intro hmem
        rcases mem_keys_setKey t k k0 e hmem with h1 | h1
        · exact h.1 h1
        · exact hk h1

lemma lookupKey_eraseKey_self (st : CacheStore α) (k : String)
    (h : (st.map Prod.fst).Nodup) :
    lookupKey (eraseKey st k) k = none := by
  induction st with
  | nil => simp [eraseKey, lookupKey, List.find?]
  | cons hd t ih =>
    cases hd with
    | mk k0 e0 =>
      simp only [List.map_cons, List.nodup_cons] at h
      by_cases hk : k0 = k
      · subst hk
        simp only [eraseKey, if_pos rfl]
        rcases hl : lookupKey t k0 with _ | v
        · exact hl
        · exfalso
          have := (lookupKey_isSome_iff t k0).mp (by simp [hl])
          exact h.1 this
      · simpa [eraseKey, hk, lookupKey, List.find?] using ih h.2

/-- C6 (amended): immediately after a put, get returns the stored value
(both cache variants, product and comparison TTLs).  Once the clock is
strictly past `timestamp + TTL`, get returns nothing; the
`cacheUtils.ts` variant additionally deletes the expired entry during
that read (for stores with duplicate-free keys, the JavaScript-object
invariant), while the variant with error handling leaves the store
untouched on read. -/
theorem C6_cache_roundtrip_and_lazy_expiry (store : CacheStore α)
    (q : String) (d : α) (now now' : Nat) :
    (getCachedProduct now q (cacheProduct now q d store)).1 = some d ∧
    getCachedProductB now q (cacheProduct now q d store) = some d ∧
    (getCachedComparison now q (cacheComparison now q d store)).1 =
      some d ∧
    (now' > now + PRODUCT_CACHE_TTL →
      (getCachedProduct now' q (cacheProduct now q d store)).1 = none) ∧
    (now' > now + PRODUCT_CACHE_TTL →
      (store.map Prod.fst).Nodup →
      lookupKey
        (getCachedProduct now' q (cacheProduct now q d store)).2 q =
        none) ∧
    (now' > now + PRODUCT_CACHE_TTL →
      getCachedProductB now' q (cacheProduct now q d store) = none) ∧
    (now' > now + COMPARISON_CACHE_TTL →
      (getCachedComparison now' q (cacheComparison now q d store)).1 =
        none) := by
  have hself := lookupKey_setKey_self store q (⟨d, now⟩ : CEntry α)
  refine ⟨?_, ?_, ?_, fun hlate => ?_, fun hlate hnd => ?_,
    fun hlate => ?_, fun hlate => ?_⟩
  · simp only [getCachedProduct, cacheProduct, cacheGet, cachePut, hself]
    rw [if_neg (by simp [PRODUCT_CACHE_TTL])]
  · simp only [getCachedProductB, cacheProduct, cachePut, hself]
    rw [if_pos (by simp [PRODUCT_CACHE_TTL])]
  · simp only [getCachedComparison, cacheComparison, cacheGet, cachePut,
      hself]
    rw [if_neg (by simp [COMPARISON_CACHE_TTL])]
  · simp only [getCachedProduct, cacheProduct, cacheGet, cachePut, hself]
    rw [if_pos (by omega)]
  · simp only [getCachedProduct, cacheProduct, cacheGet, cachePut, hself]
    rw [if_pos (by omega)]
    exact lookupKey_eraseKey_self _ q
      (setKey_keys_nodup store q (⟨d, now⟩ : CEntry α) hnd)
  · simp only [getCachedProductB, cacheProduct, cachePut, hself]
    rw [if_neg (by omega)]
  · simp only [getCachedComparison, cacheComparison, cacheGet, cachePut,
      hself]
    rw [if_pos (by omega)]

/-- C6 counterexample: in the error-handling cache variant, a read of an
expired entry returns nothing but does not remove the entry — the store
still holds it afterwards (the function performs no write at all), so
the expired entry is not removed as part of the read. -/
theorem C6_counterexample_expired_entry_survives_read :
    getCachedProductB (PRODUCT_CACHE_TTL + 1) "k"
      (cacheProduct 0 "k" (0 : Nat) []) = none ∧
    lookupKey (cacheProduct 0 "k" (0 : Nat) []) "k" =
      some (⟨0, 0⟩ : CEntry Nat) := by
  constructor <;> decide

/-- Witness for C6 at a concrete store: key `"k"`, value `5`, written at
time `0`, read back at time `0` and after both TTLs have passed. -/
theorem C6_cache_roundtrip_and_lazy_expiry_witness :
    (getCachedProduct 0 "k" (cacheProduct 0 "k" (5 : Nat) [])).1 =
      some 5 ∧
    ((0 : Nat) + PRODUCT_CACHE_TTL + 1 > 0 + PRODUCT_CACHE_TTL) ∧
    (getCachedProduct (0 + PRODUCT_CACHE_TTL + 1) "k"
      (cacheProduct 0 "k" (5 : Nat) [])).1 = none ∧
    (([] : CacheStore Nat).map Prod.fst).Nodup ∧
    lookupKey (getCachedProduct (0 + PRODUCT_CACHE_TTL + 1) "k"
      (cacheProduct 0 "k" (5 : Nat) [])).2 "k" = none ∧
    getCachedProductB (0 + PRODUCT_CACHE_TTL + 1) "k"
      (cacheProduct 0 "k" (5 : Nat) []) = none ∧
    (getCachedComparison (0 + COMPARISON_CACHE_TTL + 1) "k"
      (cacheComparison 0 "k" (5 : Nat) [])).1 = none :=
  ⟨(C6_cache_roundtrip_and_lazy_expiry [] "k" 5 0 0).1,
   by omega,
   (C6_cache_roundtrip_and_lazy_expiry [] "k" 5 0
      (0 + PRODUCT_CACHE_TTL + 1)).2.2.2.1 (by omega),
   by decide,
   (C6_cache_roundtrip_and_lazy_expiry [] "k" 5 0
      (0 + PRODUCT_CACHE_TTL + 1)).2.2.2.2.1 (by omega) (by decide),
   (C6_cache_roundtrip_and_lazy_expiry [] "k" 5 0
      (0 + PRODUCT_CACHE_TTL + 1)).2.2.2.2.2.1 (by omega),
   (C6_cache_roundtrip_and_lazy_expiry [] "k" 5 0
      (0 + COMPARISON_CACHE_TTL + 1)).2.2.2.2.2.2 (by omega)⟩

/-- C7 (amended): a put inserts or overwrites its own key and never
evicts anything — every other binding survives and the entry count
grows without bound (no maximum entry count exists).  Eviction happens
only in the error-handling variant's `saveProductCache` when the
storage backend signals quota exhaustion, and then it drops exactly the
oldest-timestamped half of the entries. -/
theorem C7_put_never_evicts (store : CacheStore α) (k : String) (d : α)
    (now : Nat) :
    lookupKey (cacheProduct now k d store) k =
      some (⟨d, now⟩ : CEntry α) ∧
    (∀ k', k' ≠ k →
      lookupKey (cacheProduct now k d store) k' = lookupKey store k') ∧
    (cacheProduct now k d store).length =
      (if (lookupKey store k).isSome then store.length
       else store.length + 1) ∧
    saveProductCacheB false store = store ∧
    (∃ dropped,
      (store.insertionSort fun a b => a.2.timestamp ≤ b.2.timestamp) =
        dropped ++ saveProductCacheB true store ∧
      dropped.length = store.length / 2 ∧
      ∀ y ∈ dropped, ∀ x ∈ saveProductCacheB true store,
        y.2.timestamp ≤ x.2.timestamp) := by
  refine ⟨lookupKey_setKey_self store k ⟨d, now⟩,
    fun k' hne => lookupKey_setKey_ne store k k' ⟨d, now⟩ hne,
    setKey_length store k ⟨d, now⟩, rfl, ?_⟩
  letI rts : (String × CEntry α) → (String × CEntry α) → Prop :=
    fun a b => a.2.timestamp ≤ b.2.timestamp
  haveI : IsTotal (String × CEntry α) rts := ⟨fun a b => le_total _ _⟩
  haveI : IsTrans (String × CEntry α) rts := ⟨fun a b c => le_trans⟩
  refine ⟨(store.insertionSort rts).take (store.length / 2), ?_, ?_, ?_⟩
  · rw [show saveProductCacheB true store =
        (store.insertionSort rts).drop (store.length / 2) from rfl]
    exact (List.take_append_drop _ _).symm
  · rw [List.length_take,
      (List.perm_insertionSort rts store).length_eq]
    exact min_eq_left (Nat.div_le_self _ _)
  · intro y hy x hx
    have hsorted := List.sorted_insertionSort rts store
    rw [← List.take_append_drop (store.length / 2)
      (store.insertionSort rts)] at hsorted
    have hx' : x ∈ (store.insertionSort rts).drop (store.length / 2) := by
      simpa [saveProductCacheB] using hx
    exact ((List.pairwise_append.mp hsorted).2.2) y hy x hx'

set_option maxRecDepth 20000 in
/-- C7 counterexample: 101 consecutive puts under distinct keys leave a
store with 101 entries and the oldest entry (key `"0"`, timestamp `0`)
still present — no maximum entry count is enforced and nothing is
evicted by the writes. -/
theorem C7_counterexample_unbounded_store :
    grownProductStore.length = 101 ∧
    lookupKey grownProductStore "0" = some (⟨0, 0⟩ : CEntry Nat) := by
  constructor <;> decide

/-- Witness for C7 at a one-entry store: overwrite-free insert under a
fresh key and the quota eviction of a concrete two-entry store. -/
theorem C7_put_never_evicts_witness :
    lookupKey (cacheProduct 7 "b" (2 : Nat) [("a", ⟨1, 0⟩)]) "b" =
      some (⟨2, 7⟩ : CEntry Nat) ∧
    ("a" : String) ≠ "b" ∧
    lookupKey (cacheProduct 7 "b" (2 : Nat) [("a", ⟨1, 0⟩)]) "a" =
      lookupKey [("a", (⟨1, 0⟩ : CEntry Nat))] "a" ∧
    (∃ dropped,
      (([("a", ⟨1, 0⟩), ("b", ⟨2, 7⟩)] :
          CacheStore Nat).insertionSort
        fun a b => a.2.timestamp ≤ b.2.timestamp) =
        dropped ++ saveProductCacheB true [("a", ⟨1, 0⟩), ("b", ⟨2, 7⟩)] ∧
      dropped.length =
        ([("a", ⟨1, 0⟩), ("b", ⟨2, 7⟩)] : CacheStore Nat).length / 2 ∧
      ∀ y ∈ dropped,
        ∀ x ∈ saveProductCacheB true
          ([("a", ⟨1, 0⟩), ("b", ⟨2, 7⟩)] : CacheStore Nat),
        y.2.timestamp ≤ x.2.timestamp) :=
  ⟨(C7_put_never_evicts [("a", ⟨1, 0⟩)] "b" 2 7).1,
   by decide,
   (C7_put_never_evicts [("a", ⟨1, 0⟩)] "b" 2 7).2.1 "a" (by decide),
   (C7_put_never_evicts [("a", ⟨1, 0⟩), ("b", ⟨2, 7⟩)] "x" 0 0).2.2.2.2⟩

/-! ## C1 — single-product acquisition cascade -/

lemma runAmazonStrategyLoop_none (outs : List (AttemptOutcome Product))
    (h : ∀ o ∈ outs, returnedNothing o = true) :
    runAmazonStrategyLoop outs = none := by
  induction outs with
  | nil => rfl
  | cons o rest ih =>
    have ho := h o (List.mem_cons_self _ _)
    cases o with
    | throws => rfl
    | returns r =>
      cases r with
      | none =>
        exact ih fun o' ho' => h o' (List.mem_cons_of_mem _ ho')
      | some p => simp [returnedNothing] at ho

lemma runStandardLoop_none (outs : List (Option Product))
    (h : ∀ o ∈ outs, o = none) :
    runStandardLoop outs = none := by
  induction outs with
  | nil => rfl
  | cons o rest ih =>
    have ho := h o (List.mem_cons_self _ _)
    subst ho
    exact ih fun o' ho' => h o' (List.mem_cons_of_mem _ ho')

/-- C1 (amended): for an input URL that passes the Amazon-URL validation
and ASIN extraction and misses the cache, exhausting every acquisition
method (hosted API, specialized direct scraping, standard proxy
rotation, server-side scraping) yields the terminal placeholder record
named "Product information unavailable" rather than an error.  URLs
that fail validation or ASIN extraction, however, make
`scrapeAmazonProduct` return an absent result (`null`), so the
"always get a record" contract holds only past those guards. -/
theorem C1_exhaustion_returns_placeholder (w : ScrapeWorld)
    (asin : String)
    (hurl : w.isAmazonUrl = true)
    (hasin : w.extractedAsin = some asin)
    (hcache : w.cachedProduct = none)
    (hoxy : returnedNothing w.oxylabsOutcome = true)
    (hamazon : ∀ o ∈ w.amazonStrategyOutcomes, returnedNothing o = true)
    (hstandard : ∀ o ∈ w.standardOutcomes, o = none)
    (hserver : returnedNothing w.serverOutcome = true) :
    scrapeAmazonProduct w = some (placeholderProduct asin) ∧
    (placeholderProduct asin).name = "Product information unavailable" := by
  refine ⟨?_, rfl⟩
  simp only [scrapeAmazonProduct, hurl, Bool.not_true, Bool.false_eq_true,
    if_false, hasin, hcache]
  rw [runAmazonStrategyLoop_none _ hamazon, runStandardLoop_none _ hstandard]
  cases hox : w.oxylabsOutcome with
  | throws =>
    cases hsv : w.serverOutcome with
    | throws => rfl
    | returns r =>
      cases r with
      | none => rfl
      | some p =>
        rw [hsv] at hserver
        simp [returnedNothing] at hserver
  | returns r =>
    cases r with
    | none =>
      cases hsv : w.serverOutcome with
      | throws => rfl
      | returns r' =>
        cases r' with
        | none => rfl
        | some p =>
          rw [hsv] at hserver
          simp [returnedNothing] at hserver
    | some p =>
      rw [hox] at hoxy
      simp [returnedNothing] at hoxy

/-- C1 counterexample: a URL that fails the Amazon-URL validation makes
`scrapeAmazonProduct` return an absent result (`null`), not a record —
the "never surfaces an absent result" contract does not cover every
input URL. -/
theorem C1_counterexample_invalid_url_returns_null :
    scrapeAmazonProduct
      { isAmazonUrl := false, extractedAsin := some "B000000000",
        cachedProduct := none,
        oxylabsOutcome := AttemptOutcome.returns none,
        amazonStrategyOutcomes := [], standardOutcomes := [],
        serverOutcome := AttemptOutcome.returns none } = none := rfl

/-- Witness for C1: an Amazon URL with ASIN `"B0TEST1234"`, an empty
cache, a thrown hosted-API call, one null-yielding strategy attempt per
fallback, and a failed server call. -/
theorem C1_exhaustion_returns_placeholder_witness :
    scrapeAmazonProduct
      { isAmazonUrl := true, extractedAsin := some "B0TEST1234",
        cachedProduct := none, oxylabsOutcome := AttemptOutcome.throws,
        amazonStrategyOutcomes :=
          [AttemptOutcome.returns none, AttemptOutcome.throws],
        standardOutcomes := [none, none],
        serverOutcome := AttemptOutcome.returns none } =
      some (placeholderProduct "B0TEST1234") ∧
    (placeholderProduct "B0TEST1234").name =
      "Product information unavailable" :=
  C1_exhaustion_returns_placeholder _ "B0TEST1234" rfl rfl rfl rfl
    (by intro o ho; fin_cases ho <;> rfl)
    (by intro o ho; fin_cases ho <;> rfl) rfl

/-! ## C8 / C10 — comparison search -/

lemma clearFlag_clearFlag (i : CItem) :
    clearFlag (clearFlag i) = clearFlag i := rfl

lemma clearFlag_price (i : CItem) : (clearFlag i).price = i.price := rfl

lemma markLowest_map_clearFlag (l : List CItem) :
    (markLowest l).map clearFlag = l.map clearFlag := by
  cases l with
  | nil => rfl
  | cons h t =>
    simp only [markLowest, List.map_cons, List.map_map]
    congr 1

lemma markLowest_pairwise (l : List CItem)
    (h : List.Pairwise (fun a b : CItem => a.price ≤ b.price) l) :
    List.Pairwise (fun a b : CItem => a.price ≤ b.price)
      (markLowest l) := by
  cases l with
  | nil => exact List.Pairwise.nil
  | cons hd t =>
    rcases List.pairwise_cons.mp h with ⟨hhd, ht⟩
    refine List.pairwise_cons.mpr ⟨?_, ?_⟩
    · intro b hb
      rcases List.mem_map.mp hb with ⟨x, hx, hbx⟩
      rw [← hbx]
      exact hhd x hx
    · exact (List.pairwise_map).mpr (ht.imp fun hab => hab)

lemma flaggedItems_markLowest (hd : CItem) (t : List CItem) :
    flaggedItems (markLowest (hd :: t)) =
      [{ hd with isLowestPrice := true }] := by
  have hnil : (t.map clearFlag).filter (fun i => i.isLowestPrice) = [] := by
    refine List.filter_eq_nil_iff.mpr fun a ha => ?_
    rcases List.mem_map.mp ha with ⟨x, _, hax⟩
    rw [← hax]
    simp [clearFlag]
  simp only [markLowest, flaggedItems, List.filter_cons, if_true]
  simpa using hnil

lemma sortByPrice_perm (l : List CItem) : (sortByPrice l).Perm l :=
  List.perm_insertionSort _ l

lemma sortByPrice_sorted (l : List CItem) :
    List.Pairwise (fun a b : CItem => a.price ≤ b.price)
      (sortByPrice l) := by
  letI rp : CItem → CItem → Prop := fun a b => a.price ≤ b.price
  haveI : IsTotal CItem rp := ⟨fun a b => le_total _ _⟩
  haveI : IsTrans CItem rp := ⟨fun a b c => le_trans⟩
  exact List.sorted_insertionSort rp l

lemma marked_sorted_props (l : List CItem) (hne : l ≠ []) :
    ((markLowest (sortByPrice l)).map clearFlag).Perm
      (l.map clearFlag) ∧
    List.Pairwise (fun a b : CItem => a.price ≤ b.price)
      (markLowest (sortByPrice l)) ∧
    (flaggedItems (markLowest (sortByPrice l))).length = 1 ∧
    (markLowest (sortByPrice l)).length = l.length ∧
    ∀ y ∈ flaggedItems (markLowest (sortByPrice l)),
      ∀ x ∈ markLowest (sortByPrice l), y.price ≤ x.price := by
  have hsne : sortByPrice l ≠ [] := by
    intro hnil
    have hp := sortByPrice_perm l
    rw [hnil] at hp
    exact hne (List.Perm.nil_eq hp).symm
  have hlen := (sortByPrice_perm l).length_eq
  have hpermmap := (sortByPrice_perm l).map clearFlag
  have hsorted := sortByPrice_sorted l
  rcases hcons : sortByPrice l with _ | ⟨hd, t⟩
  · exact absurd hcons hsne
  rw [hcons] at hlen hpermmap hsorted
  rcases List.pairwise_cons.mp hsorted with ⟨hhd, _⟩
  refine ⟨?_, markLowest_pairwise _ hsorted, ?_, ?_, ?_⟩
  · rw [markLowest_map_clearFlag]
    exact hpermmap
  · rw [flaggedItems_markLowest]
    rfl
  · have : (markLowest (hd :: t)).length = (hd :: t).length := by
      simp [markLowest]
    rw [this]
    exact hlen
  · intro y hy x hx
    rw [flaggedItems_markLowest] at hy
    have hy' : y = { hd with isLowestPrice := true } := by
      simpa using hy
    subst hy'
    simp only [markLowest, List.mem_cons] at hx
    rcases hx with hx | hx
    · rw [hx]
    · rcases List.mem_map.mp hx with ⟨z, hz, hxz⟩
      rw [← hxz]
      show hd.price ≤ (clearFlag z).price
      rw [clearFlag_price]
      exact hhd z hz

lemma reduceOption_ne_nil (outs : List (Option CItem))
    (h : outs.any Option.isSome = true) : outs.reduceOption ≠ [] := by
  rcases List.any_eq_true.mp h with ⟨o, ho, hsome⟩
  rcases Option.isSome_iff_exists.mp hsome with ⟨x, hx⟩
  subst hx
  exact List.ne_nil_of_mem (List.reduceOption_mem_iff.mpr ho)

lemma reduceOption_all_none (outs : List (Option CItem))
    (h : ∀ o ∈ outs, o = none) : outs.reduceOption = [] := by
  induction outs with
  | nil => rfl
  | cons o rest ih =>
    have ho := h o (List.mem_cons_self _ _)
    subst ho
    simpa [List.reduceOption_cons_of_none] using
      ih fun o' ho' => h o' (List.mem_cons_of_mem _ ho')

lemma getCachedComparison_miss (now : Nat) (q : String)
    (cache : CacheStore (List CItem)) (h : lookupKey cache q = none) :
    getCachedComparison now q cache = (none, cache) := by
  simp [getCachedComparison, cacheGet, h]

/-- C8: when the hosted comparison API fails, no on-page Amazon item is
available, and at least one platform branch succeeds, the client-side
comparison returns (up to the best-price flag) exactly the records of
the successful platform branches — failed branches are omitted and do
not fail the search — sorted ascending by price, with exactly one
record flagged as lowest price, and that record's price is minimal. -/
theorem C8_partial_success_sorted_and_flagged (w : SearchWorld)
    (now : Nat) (cache : CacheStore (List CItem))
    (hmiss : lookupKey cache w.searchTerm = none)
    (hoxy : returnedNoItems w.oxylabsOutcome = true)
    (hamazon : w.amazonItem = none)
    (hsucc : w.platformOutcomes.any Option.isSome = true) :
    (((searchProductOnPlatforms w now cache).1).map clearFlag).Perm
      ((w.platformOutcomes.reduceOption).map clearFlag) ∧
    List.Pairwise (fun a b : CItem => a.price ≤ b.price)
      (searchProductOnPlatforms w now cache).1 ∧
    (flaggedItems (searchProductOnPlatforms w now cache).1).length = 1 ∧
    (∀ y ∈ flaggedItems (searchProductOnPlatforms w now cache).1,
      ∀ x ∈ (searchProductOnPlatforms w now cache).1,
        y.price ≤ x.price) := by
  have hvalid : collectValid w.amazonItem w.platformOutcomes =
      w.platformOutcomes.reduceOption := by
    simp [collectValid, hamazon]
  have hne : collectValid w.amazonItem w.platformOutcomes ≠ [] := by
    rw [hvalid]
    exact reduceOption_ne_nil _ hsucc
  have hres : (searchProductOnPlatforms w now cache).1 =
      markLowest (sortByPrice (collectValid w.amazonItem
        w.platformOutcomes)) := by
    have hlen : 0 < (collectValid w.amazonItem w.platformOutcomes).length :=
      List.length_pos.mpr hne
    cases hoxycase : w.oxylabsOutcome with
    | throws =>
      simp only [searchProductOnPlatforms,
        getCachedComparison_miss now w.searchTerm cache hmiss, hoxycase]
      rw [if_pos hlen]
    | returns r =>
      cases r with
      | none =>
        simp only [searchProductOnPlatforms,
          getCachedComparison_miss now w.searchTerm cache hmiss, hoxycase]
        rw [if_pos hlen]
      | some res =>
        rw [hoxycase] at hoxy
        have hresnil : res = [] := by
          simpa [returnedNoItems] using hoxy
        subst hresnil
        simp only [searchProductOnPlatforms,
          getCachedComparison_miss now w.searchTerm cache hmiss, hoxycase]
        rw [if_neg (by simp), if_pos hlen]
  have hprops := marked_sorted_props _ hne
  rw [hres, hvalid]
  rw [hvalid] at hprops
  exact ⟨hprops.1, hprops.2.1, hprops.2.2.1, hprops.2.2.2.2⟩

/-- Witness for C8: an empty cache, a thrown hosted-API call, no
on-page Amazon item, and two successful platform branches out of four. -/
theorem C8_partial_success_sorted_and_flagged_witness :
    lookupKey ([] : CacheStore (List CItem))
      searchWorldTwoOfFour.searchTerm = none ∧
    returnedNoItems searchWorldTwoOfFour.oxylabsOutcome = true ∧
    searchWorldTwoOfFour.amazonItem = none ∧
    searchWorldTwoOfFour.platformOutcomes.any Option.isSome = true ∧
    (flaggedItems
      (searchProductOnPlatforms searchWorldTwoOfFour 0 []).1).length =
      1 :=
  ⟨rfl, rfl, rfl, by decide,
   (C8_partial_success_sorted_and_flagged searchWorldTwoOfFour 0 []
      rfl rfl rfl (by decide)).2.2.1⟩

/-- C10: when the hosted API, every client-side platform branch, and
the server-side fallback all fail, the search still returns the
fabricated ("estimated") comparison list — at least the four always-
present marketplaces, exactly one record flagged as lowest price, with
minimal price — and that fabricated result is never written to the
comparison cache: the cache comes back unchanged, and a subsequent
identical lookup still misses. -/
theorem C10_mock_results_never_cached (w : SearchWorld) (now : Nat)
    (cache : CacheStore (List CItem))
    (hmiss : lookupKey cache w.searchTerm = none)
    (hoxy : returnedNoItems w.oxylabsOutcome = true)
    (hamazon : ∀ a, w.amazonItem = some a → a.price ≤ 0)
    (hplat : ∀ o ∈ w.platformOutcomes, o = none)
    (hserver : returnedNoItems w.serverOutcome = true) :
    4 ≤ (searchProductOnPlatforms w now cache).1.length ∧
    (flaggedItems (searchProductOnPlatforms w now cache).1).length = 1 ∧
    (∀ y ∈ flaggedItems (searchProductOnPlatforms w now cache).1,
      ∀ x ∈ (searchProductOnPlatforms w now cache).1,
        y.price ≤ x.price) ∧
    (searchProductOnPlatforms w now cache).2 = cache ∧
    (∀ now', (getCachedComparison now' w.searchTerm
      (searchProductOnPlatforms w now cache).2).1 = none) := by
  have hvalid : collectValid w.amazonItem w.platformOutcomes = [] := by
    have hro := reduceOption_all_none _ hplat
    cases ham : w.amazonItem with
    | none => simp [collectValid, hro]
    | some a =>
      have := hamazon a ham
      simp [collectValid, hro, not_lt.mpr this]
  have hmockne : mockResults w.mock ≠ [] := by
    simp [mockResults]
  have hmock4 : 4 ≤ (mockResults w.mock).length := by
    simp only [mockResults, List.length_append, List.length_cons,
      List.length_nil]
    omega
  have hres : searchProductOnPlatforms w now cache =
      (markLowest (sortByPrice (mockResults w.mock)), cache) := by
    have hclient : ¬ (collectValid w.amazonItem
        w.platformOutcomes).length > 0 := by
      rw [hvalid]
      simp
    cases hoxycase : w.oxylabsOutcome with
    | throws =>
      simp only [searchProductOnPlatforms,
        getCachedComparison_miss now w.searchTerm cache hmiss, hoxycase]
      rw [if_neg hclient]
      cases hsv : w.serverOutcome with
      | throws => rfl
      | returns r =>
        cases r with
        | none => rfl
        | some res =>
          rw [hsv] at hserver
          have : res = [] := by simpa [returnedNoItems] using hserver
          subst this
          rfl
    | returns r =>
      cases r with
      | none =>
        simp only [searchProductOnPlatforms,
          getCachedComparison_miss now w.searchTerm cache hmiss, hoxycase]
        rw [if_neg hclient]
        cases hsv : w.serverOutcome with
        | throws => rfl
        | returns r' =>
          cases r' with
          | none => rfl
          | some res =>
            rw [hsv] at hserver
            have : res = [] := by simpa [returnedNoItems] using hserver
            subst this
            rfl
      | some res0 =>
        rw [hoxycase] at hoxy
        have : res0 = [] := by simpa [returnedNoItems] using hoxy
        subst this
        simp only [searchProductOnPlatforms,
          getCachedComparison_miss now w.searchTerm cache hmiss, hoxycase]
        rw [if_neg (by simp), if_neg hclient]
        cases hsv : w.serverOutcome with
        | throws => rfl
        | returns r' =>
          cases r' with
          | none => rfl
          | some res =>
            rw [hsv] at hserver
            have : res = [] := by simpa [returnedNoItems] using hserver
            subst this
            rfl
  have hprops := marked_sorted_props (mockResults w.mock) hmockne
  rw [hres]
  refine ⟨?_, hprops.2.2.1, hprops.2.2.2.2, rfl, fun now' => ?_⟩
  · rw [hprops.2.2.2.1]
    exact hmock4
  · rw [getCachedComparison_miss now' w.searchTerm cache hmiss]

/-- Witness for C10: empty cache, thrown hosted-API call, four failed
platform branches, thrown server-side call. -/
theorem C10_mock_results_never_cached_witness :
    lookupKey ([] : CacheStore (List CItem))
      searchWorldAllFailed.searchTerm = none ∧
    (∀ o ∈ searchWorldAllFailed.platformOutcomes, o = none) ∧
    4 ≤ (searchProductOnPlatforms searchWorldAllFailed 0 []).1.length ∧
    (searchProductOnPlatforms searchWorldAllFailed 0 []).2 = [] :=
  ⟨rfl, by decide,
   (C10_mock_results_never_cached searchWorldAllFailed 0 [] rfl
      rfl (fun a ha => by simp [searchWorldAllFailed] at ha)
      (by decide) rfl).1,
   (C10_mock_results_never_cached searchWorldAllFailed 0 [] rfl
      rfl (fun a ha => by simp [searchWorldAllFailed] at ha)
      (by decide) rfl).2.2.2.1⟩

/-! ## C9 — price parsing -/

lemma isOtherC_digit (c : Char) (h : c.isDigit = true) :
    isOtherC c = false := by
  simp [isOtherC, h]

lemma isG2C_digit (c : Char) (h : c.isDigit = true) : isG2C c = true := by
  simp [isG2C, h]

lemma digit_toLower (c : Char) (h : c.isDigit = true) : c.toLower = c := by
  simp only [Char.isDigit, Bool.and_eq_true, decide_eq_true_eq] at h
  simp only [Char.toLower]
  rw [if_neg]
  intro hc
  have : c.toNat ≤ 57 := by
    simpa [Char.toNat] using h.2
  omega

lemma digit_not_ws (c : Char) (h : c.isDigit = true) : isWsC c = false := by
  simp only [Char.isDigit, Bool.and_eq_true, decide_eq_true_eq] at h
  have h48 : 48 ≤ c.val := h.1
  have h57 : c.val ≤ 57 := h.2
  rcases hws : isWsC c
  · rfl
  · exfalso
    simp only [isWsC, Bool.or_eq_true, decide_eq_true_eq] at hws
    rcases hws with ((((h | h) | h) | h) | h) | h <;>
      (rw [h] at h48; revert h48; decide)

lemma digit_ne (c x : Char) (hc : c.isDigit = true)
    (hx : x.isDigit = false) : c ≠ x := by
  intro h
  rw [h, hx] at hc
  exact Bool.false_ne_true hc

lemma lowerL_digits (l : List Char) (h : ∀ c ∈ l, c.isDigit = true) :
    lowerL l = l := by
  rw [lowerL, List.map_congr_left fun a ha => digit_toLower a (h a ha)]
  exact List.map_id l

lemma takeWhile_all_append (p : Char → Bool) (l r : List Char)
    (h : ∀ c ∈ l, p c = true) :
    (l ++ r).takeWhile p = l ++ r.takeWhile p := by
  induction l with
  | nil => simp
  | cons c t ih =>
    rw [List.cons_append, List.takeWhile_cons,
      if_pos (h c (List.mem_cons_self _ _)),
      ih fun c' hc' => h c' (List.mem_cons_of_mem _ hc')]
    rfl

lemma dropWhile_all_append (p : Char → Bool) (l r : List Char)
    (h : ∀ c ∈ l, p c = true) :
    (l ++ r).dropWhile p = r.dropWhile p := by
  induction l with
  | nil => simp
  | cons c t ih =>
    rw [List.cons_append, List.dropWhile_cons,
      if_pos (h c (List.mem_cons_self _ _))]
    exact ih fun c' hc' => h c' (List.mem_cons_of_mem _ hc')

lemma takeWhile_all (p : Char → Bool) (l : List Char)
    (h : ∀ c ∈ l, p c = true) : l.takeWhile p = l := by
  simpa using takeWhile_all_append p l [] h

lemma dropWhile_all (p : Char → Bool) (l : List Char)
    (h : ∀ c ∈ l, p c = true) : l.dropWhile p = [] := by
  simpa using dropWhile_all_append p l [] h

lemma dropWhile_head_false (p : Char → Bool) (l : List Char)
    (h : ∀ x, l.head? = some x → p x = false) : l.dropWhile p = l := by
  cases l with
  | nil => rfl
  | cons c t =>
    rw [List.dropWhile_cons, if_neg]
    simp [h c rfl]

lemma takeWhile_head_false (p : Char → Bool) (l : List Char)
    (h : ∀ x, l.head? = some x → p x = false) : l.takeWhile p = [] := by
  cases l with
  | nil => rfl
  | cons c t =>
    rw [List.takeWhile_cons, if_neg]
    simp [h c rfl]

lemma jsTrim_no_ws (l : List Char) (h : ∀ c ∈ l, isWsC c = false) :
    jsTrim l = l := by
  rw [jsTrim]
  rw [show l.dropWhile isWsC = l from ?h1]
  · rw [show l.reverse.dropWhile isWsC = l.reverse from ?h2]
    · exact List.reverse_reverse l
    case h2 =>
      cases hrev : l.reverse with
      | nil => rfl
      | cons c t =>
        rw [List.dropWhile_cons, if_neg]
        have : c ∈ l := by
          rw [← List.mem_reverse, hrev]
          exact List.mem_cons_self _ _
        simp [h c this]
  case h1 =>
    cases l with
    | nil => rfl
    | cons c t =>
      rw [List.dropWhile_cons, if_neg]
      simp [h c (List.mem_cons_self _ _)]

lemma map_nbsp_fixed (l : List Char) (h : ∀ c ∈ l, c ≠ nbspChar) :
    (l.map fun c => if c = nbspChar then ' ' else c) = l := by
  have heq : (l.map fun c => if c = nbspChar then ' ' else c) =
      l.map id := by
    refine List.map_congr_left fun a ha => ?_
    rw [if_neg (h a ha)]
    rfl
  rw [heq, List.map_id]

lemma charsAgree_nil_false (b : Char) (r : List Char) :
    charsAgree (b :: r) [] = false := rfl

lemma charsAgree_head_ne (b : Char) (r l : List Char)
    (h : ∀ x, l.head? = some x → x ≠ b) :
    charsAgree (b :: r) l = false := by
  cases l with
  | nil => rfl
  | cons c t =>
    have : (b == c) = false :=
      beq_eq_false_iff_ne.mpr fun hbc => (h c rfl) hbc.symm
    simp [charsAgree, this]

lemma charsContains_head_notmem (a : Char) (r l : List Char)
    (h : ∀ x ∈ l, x ≠ a) : charsContains (a :: r) l = false := by
  induction l with
  | nil => rfl
  | cons c t ih =>
    have hc : (a == c) = false :=
      beq_eq_false_iff_ne.mpr fun hac =>
        (h c (List.mem_cons_self _ _)) hac.symm
    simp only [charsContains, charsAgree, hc, Bool.false_and,
      Bool.false_or]
    exact ih fun x hx => h x (List.mem_cons_of_mem _ hx)

lemma charsContains_two_cons_false (a b : Char) (r : List Char)
    (c : Char) (l : List Char) (hl : ∀ x ∈ l, x.isDigit = true)
    (ha : a.isDigit = false) (hb : b.isDigit = false) :
    charsContains (a :: b :: r) (c :: l) = false := by
  have hag : charsAgree (b :: r) l = false :=
    charsAgree_head_ne b r l fun x hx hxb => by
      have : x ∈ l := by
        cases l with
        | nil => simp at hx
        | cons y t =>
          simp only [List.head?] at hx
          rw [Option.some_inj.mp hx]
          exact List.mem_cons_self _ _
      exact digit_ne x b (hl x this) hb hxb
  simp only [charsContains, charsAgree, hag, Bool.and_false,
    Bool.false_or]
  exact charsContains_head_notmem a (b :: r) l fun x hx =>
    digit_ne x a (hl x hx) ha

lemma charsContains_two_append_false (a b : Char) (r : List Char)
    (l : List Char) (c : Char) (hl : ∀ x ∈ l, x.isDigit = true)
    (ha : a.isDigit = false) (_hb : b.isDigit = false) :
    charsContains (a :: b :: r) (l ++ [c]) = false := by
  induction l with
  | nil =>
    have : charsAgree (b :: r) ([] : List Char) = false := rfl
    simp [charsContains, charsAgree, this]
  | cons x t ih =>
    have hx : (a == x) = false :=
      beq_eq_false_iff_ne.mpr fun hax => by
        have := hl x (List.mem_cons_self _ _)
        exact digit_ne x a this ha hax.symm
    simp only [List.cons_append, charsContains, charsAgree, hx,
      Bool.false_and, Bool.false_or]
    exact ih fun y hy => hl y (List.mem_cons_of_mem _ hy)

lemma isG2C_of_other (c : Char) (h : isOtherC c = true) :
    isG2C c = false := by
  simp only [isOtherC, Bool.not_eq_true', Bool.or_eq_false_iff] at h
  simp [isG2C, h.1.1, h.1.2]

lemma other_ne_dot (c : Char) (h : isOtherC c = true) : c ≠ '.' := by
  simp only [isOtherC, Bool.not_eq_true', Bool.or_eq_false_iff] at h
  simpa using h.2

lemma head_digit_other_false (d : List Char)
    (hdig : ∀ c ∈ d, c.isDigit = true) :
    ∀ x, d.head? = some x → isOtherC x = false := by
  intro x hx
  cases d with
  | nil => simp at hx
  | cons c t =>
    simp only [List.head?] at hx
    rw [← Option.some_inj.mp hx]
    exact isOtherC_digit c (hdig c (List.mem_cons_self _ _))

lemma fracPart_nil : fracPart [] = ([], []) := rfl

lemma fracPart_not_dot (c : Char) (rest : List Char) (h : c ≠ '.') :
    fracPart (c :: rest) = ([], c :: rest) := by
  simp [fracPart, h]

lemma matchTriple_digits (d : List Char) (hd : digitsNE d) :
    matchTriple d = some ([], d, []) := by
  obtain ⟨hne, hdig⟩ := hd
  have h1 : d.takeWhile isOtherC = [] :=
    takeWhile_head_false _ _ (head_digit_other_false d hdig)
  have h2 : d.dropWhile isOtherC = d :=
    dropWhile_head_false _ _ (head_digit_other_false d hdig)
  have h3 : d.takeWhile isG2C = d :=
    takeWhile_all _ _ fun c hc => isG2C_digit c (hdig c hc)
  have h4 : d.dropWhile isG2C = [] :=
    dropWhile_all _ _ fun c hc => isG2C_digit c (hdig c hc)
  rcases d with _ | ⟨c, t⟩
  · exact absurd rfl hne
  simp only [matchTriple, h1, h2, h3, h4, fracPart_nil]
  rw [if_pos (isG2C_digit c (hdig c (List.mem_cons_self _ _)))]
  simp

lemma matchTriple_comma (d1 d2 : List Char) (h1 : digitsNE d1)
    (h2 : digitsNE d2) :
    matchTriple (d1 ++ ',' :: d2) = some ([], d1 ++ ',' :: d2, []) := by
  obtain ⟨hne1, hdig1⟩ := h1
  obtain ⟨_, hdig2⟩ := h2
  have hall : ∀ c ∈ d1 ++ ',' :: d2, isG2C c = true := by
    intro c hc
    rcases List.mem_append.mp hc with h | h
    · exact isG2C_digit c (hdig1 c h)
    · rcases List.mem_cons.mp h with h | h
      · rw [h]
        rfl
      · exact isG2C_digit c (hdig2 c h)
  have hhead : ∀ x, (d1 ++ ',' :: d2).head? = some x →
      isOtherC x = false := by
    intro x hx
    rcases d1 with _ | ⟨c, t⟩
    · exact absurd rfl hne1
    simp only [List.cons_append, List.head?] at hx
    rw [← Option.some_inj.mp hx]
    exact isOtherC_digit c (hdig1 c (List.mem_cons_self _ _))
  have hA : (d1 ++ ',' :: d2).takeWhile isOtherC = [] :=
    takeWhile_head_false _ _ hhead
  have hB : (d1 ++ ',' :: d2).dropWhile isOtherC = d1 ++ ',' :: d2 :=
    dropWhile_head_false _ _ hhead
  have hC : (d1 ++ ',' :: d2).takeWhile isG2C = d1 ++ ',' :: d2 :=
    takeWhile_all _ _ hall
  have hD : (d1 ++ ',' :: d2).dropWhile isG2C = [] :=
    dropWhile_all _ _ hall
  obtain ⟨c, t, hcons⟩ : ∃ c t, d1 ++ ',' :: d2 = c :: t := by
    rcases d1 with _ | ⟨x, t1⟩
    · exact absurd rfl hne1
    · exact ⟨x, t1 ++ ',' :: d2, by simp⟩
  simp only [matchTriple, hA, hB, hC, hD, fracPart_nil]
  simp only [hcons]
  rw [if_pos ?hg2]
  case hg2 =>
    have : c ∈ d1 ++ ',' :: d2 := by
      rw [hcons]
      exact List.mem_cons_self _ _
    exact hall c this
  simp [← hcons]

lemma matchTriple_lead (c : Char) (d : List Char)
    (hc : isOtherC c = true) (hd : digitsNE d) :
    matchTriple (c :: d) = some ([c], d, []) := by
  obtain ⟨hne, hdig⟩ := hd
  have h1 : (c :: d).takeWhile isOtherC = [c] := by
    rw [List.takeWhile_cons, if_pos hc,
      takeWhile_head_false _ _ (head_digit_other_false d hdig)]
  have h2 : (c :: d).dropWhile isOtherC = d := by
    rw [List.dropWhile_cons, if_pos hc,
      dropWhile_head_false _ _ (head_digit_other_false d hdig)]
  have h3 : d.takeWhile isG2C = d :=
    takeWhile_all _ _ fun x hx => isG2C_digit x (hdig x hx)
  have h4 : d.dropWhile isG2C = [] :=
    dropWhile_all _ _ fun x hx => isG2C_digit x (hdig x hx)
  rcases d with _ | ⟨c0, t⟩
  · exact absurd rfl hne
  simp only [matchTriple, h1, h2, h3, h4, fracPart_nil]
  rw [if_pos (isG2C_digit c0 (hdig c0 (List.mem_cons_self _ _)))]
  simp

lemma matchTriple_trail (d : List Char) (c : Char) (hd : digitsNE d)
    (hc : isOtherC c = true) :
    matchTriple (d ++ [c]) = some ([], d, [c]) := by
  obtain ⟨hne, hdig⟩ := hd
  have hhead : ∀ x, (d ++ [c]).head? = some x → isOtherC x = false := by
    intro x hx
    rcases d with _ | ⟨c0, t⟩
    · exact absurd rfl hne
    simp only [List.cons_append, List.head?] at hx
    rw [← Option.some_inj.mp hx]
    exact isOtherC_digit c0 (hdig c0 (List.mem_cons_self _ _))
  have hA : (d ++ [c]).takeWhile isOtherC = [] :=
    takeWhile_head_false _ _ hhead
  have hB : (d ++ [c]).dropWhile isOtherC = d ++ [c] :=
    dropWhile_head_false _ _ hhead
  have hC : (d ++ [c]).takeWhile isG2C = d := by
    rw [takeWhile_all_append _ _ _ fun x hx => isG2C_digit x (hdig x hx),
      List.takeWhile_cons, if_neg (by simp [isG2C_of_other c hc])]
    simp
  have hD : (d ++ [c]).dropWhile isG2C = [c] := by
    rw [dropWhile_all_append _ _ _ fun x hx => isG2C_digit x (hdig x hx),
      List.dropWhile_cons, if_neg (by simp [isG2C_of_other c hc])]
  have hfr : fracPart [c] = ([], [c]) := fracPart_not_dot c []
    (other_ne_dot c hc)
  obtain ⟨c0, t, hcons⟩ : ∃ c0 t, d ++ [c] = c0 :: t := by
    rcases d with _ | ⟨x, t1⟩
    · exact absurd rfl hne
    · exact ⟨x, t1 ++ [c], by simp⟩
  have hc0dig : c0.isDigit = true := by
    rcases d with _ | ⟨x, t1⟩
    · exact absurd rfl hne
    have hx : x = c0 := by
      have := congrArg List.head? hcons
      simpa using this
    rw [← hx]
    exact hdig x (List.mem_cons_self _ _)
  simp only [matchTriple, hA, hB, hC, hD, hfr]
  simp only [hcons]
  rw [if_pos (isG2C_digit c0 hc0dig), List.takeWhile_cons, if_pos hc]
  simp

lemma matchTriple_range (d1 d2 : List Char) (h1 : digitsNE d1)
    (h2 : digitsNE d2) :
    matchTriple (d1 ++ '-' :: d2) = some ([], d1, ['-']) := by
  obtain ⟨hne1, hdig1⟩ := h1
  obtain ⟨hne2, hdig2⟩ := h2
  have hhead : ∀ x, (d1 ++ '-' :: d2).head? = some x →
      isOtherC x = false := by
    intro x hx
    rcases d1 with _ | ⟨c0, t⟩
    · exact absurd rfl hne1
    simp only [List.cons_append, List.head?] at hx
    rw [← Option.some_inj.mp hx]
    exact isOtherC_digit c0 (hdig1 c0 (List.mem_cons_self _ _))
  have hA : (d1 ++ '-' :: d2).takeWhile isOtherC = [] :=
    takeWhile_head_false _ _ hhead
  have hB : (d1 ++ '-' :: d2).dropWhile isOtherC = d1 ++ '-' :: d2 :=
    dropWhile_head_false _ _ hhead
  have hC : (d1 ++ '-' :: d2).takeWhile isG2C = d1 := by
    rw [takeWhile_all_append _ _ _ fun x hx => isG2C_digit x (hdig1 x hx),
      List.takeWhile_cons, if_neg (by decide)]
    simp
  have hD : (d1 ++ '-' :: d2).dropWhile isG2C = '-' :: d2 := by
    rw [dropWhile_all_append _ _ _ fun x hx => isG2C_digit x (hdig1 x hx),
      List.dropWhile_cons, if_neg (by decide)]
  have hfr : fracPart ('-' :: d2) = ([], '-' :: d2) :=
    fracPart_not_dot '-' d2 (by decide)
  obtain ⟨c0, t, hcons⟩ : ∃ c0 t, d1 ++ '-' :: d2 = c0 :: t := by
    rcases d1 with _ | ⟨x, t1⟩
    · exact absurd rfl hne1
    · exact ⟨x, t1 ++ '-' :: d2, by simp⟩
  have hc0dig : c0.isDigit = true := by
    rcases d1 with _ | ⟨x, t1⟩
    · exact absurd rfl hne1
    have hx : x = c0 := by
      have := congrArg List.head? hcons
      simpa using this
    rw [← hx]
    exact hdig1 x (List.mem_cons_self _ _)
  simp only [matchTriple, hA, hB, hC, hD, hfr]
  simp only [hcons]
  rw [if_pos (isG2C_digit c0 hc0dig), List.takeWhile_cons,
    if_pos (by decide : isOtherC '-' = true),
    takeWhile_head_false _ _ (head_digit_other_false d2 hdig2)]
  simp

lemma findTriple_eval (c : Char) (t : List Char)
    (m : List Char × List Char × List Char)
    (h : matchTriple (c :: t) = some m) : findTriple (c :: t) = some m := by
  simp [findTriple, h]

lemma findTriple_of_ne_nil (s : List Char)
    (m : List Char × List Char × List Char) (hne : s ≠ [])
    (h : matchTriple s = some m) : findTriple s = some m := by
  cases s with
  | nil => exact absurd rfl hne
  | cons c t => simp [findTriple, h]

lemma contains_digits_false (a : Char) (r d : List Char)
    (ha : a.isDigit = false) (hd : ∀ c ∈ d, c.isDigit = true) :
    charsContains (a :: r) d = false :=
  charsContains_head_notmem a r d fun x hx => digit_ne x a (hd x hx) ha

lemma parseFloatQ_digits (d : List Char)
    (hd : ∀ c ∈ d, c.isDigit = true) :
    parseFloatQ d = (natOfDigits d : ℚ) := by
  simp only [parseFloatQ, takeWhile_all Char.isDigit d hd,
    dropWhile_all Char.isDigit d hd, fracDigits]
  norm_num [natOfDigits]

lemma parsePrice_digits (d : List Char) (hd : digitsNE d) :
    parsePrice (String.mk d) = (some (natOfDigits d : ℚ), some "$") := by
  obtain ⟨hne, hdig⟩ := hd
  have hmkne : String.mk d ≠ "" := fun he => hne (congrArg String.data he)
  have htl : (String.mk d).toList = d := rfl
  have hmap : (d.map fun c => if c = nbspChar then ' ' else c) = d :=
    map_nbsp_fixed d fun c hc =>
      digit_ne c nbspChar (hdig c hc) (by decide)
  have htrim : jsTrim d = d :=
    jsTrim_no_ws d fun c hc => digit_not_ws c (hdig c hc)
  have hfind : findTriple d = some ([], d, []) :=
    findTriple_of_ne_nil d _ hne (matchTriple_digits d ⟨hne, hdig⟩)
  have hfilter : d.filter (fun c => c ≠ ',') = d :=
    List.filter_eq_self.mpr fun c hc => by
      simpa using digit_ne c ',' (hdig c hc) (by decide)
  have hlower : lowerL d = d := lowerL_digits d hdig
  have hc1 : charsContains "₹".toList d = false :=
    contains_digits_false '₹' [] d (by decide) hdig
  have hc2 : charsContains "rs.".toList d = false :=
    contains_digits_false 'r' ['s', '.'] d (by decide) hdig
  have hc3 : charsContains "inr".toList d = false :=
    contains_digits_false 'i' ['n', 'r'] d (by decide) hdig
  have hc4 : charsContains ['-'] d = false :=
    contains_digits_false '-' [] d (by decide) hdig
  have hc5 : charsContains "USD".toList d = false :=
    contains_digits_false 'U' ['S', 'D'] d (by decide) hdig
  have hc6 : charsContains "$".toList d = false :=
    contains_digits_false '$' [] d (by decide) hdig
  have hfloat := parseFloatQ_digits d hdig
  have hc7 : charsContains ['E', 'U', 'R'] d = false :=
    contains_digits_false 'E' ['U', 'R'] d (by decide) hdig
  have hc8 : charsContains ['€'] d = false :=
    contains_digits_false '€' [] d (by decide) hdig
  have hc9 : charsContains ['G', 'B', 'P'] d = false :=
    contains_digits_false 'G' ['B', 'P'] d (by decide) hdig
  have hc10 : charsContains ['£'] d = false :=
    contains_digits_false '£' [] d (by decide) hdig
  have hc11 : charsContains ['I', 'N', 'R'] d = false :=
    contains_digits_false 'I' ['N', 'R'] d (by decide) hdig
  have hc12 : charsContains ['R', 's', '.'] d = false :=
    contains_digits_false 'R' ['s', '.'] d (by decide) hdig
  have hne1 : ¬ (['$'] : List Char) = ['₹'] := by decide
  have hne2 : charsContains ['r', 's'] (lowerL ['$']) = false := by decide
  simp only [parsePrice, if_neg hmkne, htl, hmap, htrim, hfind, hfilter,
    hlower, hc1, hc2, hc3, hc4, hc5, hc6, hfloat]
  simp [jsTrim, hne, hc7, hc8, hc9, hc10, hc11, hc12, hne1, hne2, hfloat]

lemma mem_append_cons_ne (d1 d2 : List Char) (m a : Char)
    (hd1 : ∀ c ∈ d1, c.isDigit = true) (hd2 : ∀ c ∈ d2, c.isDigit = true)
    (ha : a.isDigit = false) (ham : m ≠ a) :
    ∀ x ∈ d1 ++ m :: d2, x ≠ a := by
  intro x hx
  rcases List.mem_append.mp hx with h | h
  · exact digit_ne x a (hd1 x h) ha
  · rcases List.mem_cons.mp h with h | h
    · rw [h]
      exact ham
    · exact digit_ne x a (hd2 x h) ha

lemma parsePrice_comma (d1 d2 : List Char) (h1 : digitsNE d1)
    (h2 : digitsNE d2) :
    (parsePrice (String.mk (d1 ++ ',' :: d2))).1 =
      some (natOfDigits (d1 ++ d2) : ℚ) := by
  obtain ⟨hne1, hdig1⟩ := h1
  obtain ⟨hne2, hdig2⟩ := h2
  have hdig12 : ∀ c ∈ d1 ++ d2, c.isDigit = true := by
    intro c hc
    rcases List.mem_append.mp hc with h | h
    · exact hdig1 c h
    · exact hdig2 c h
  have hmkne : String.mk (d1 ++ ',' :: d2) ≠ "" := fun he => by
    have := congrArg String.data he
    exact List.append_ne_nil_of_right_ne_nil d1 (by simp) this
  have htl : (String.mk (d1 ++ ',' :: d2)).toList = d1 ++ ',' :: d2 := rfl
  have hmap : ((d1 ++ ',' :: d2).map
      fun c => if c = nbspChar then ' ' else c) = d1 ++ ',' :: d2 :=
    map_nbsp_fixed _ (mem_append_cons_ne d1 d2 ',' nbspChar hdig1 hdig2
      (by decide) (by decide))
  have htrim : jsTrim (d1 ++ ',' :: d2) = d1 ++ ',' :: d2 := by
    refine jsTrim_no_ws _ fun c hc => ?_
    rcases List.mem_append.mp hc with h | h
    · exact digit_not_ws c (hdig1 c h)
    · rcases List.mem_cons.mp h with h | h
      · rw [h]
        rfl
      · exact digit_not_ws c (hdig2 c h)
  have hfind : findTriple (d1 ++ ',' :: d2) =
      some ([], d1 ++ ',' :: d2, []) :=
    findTriple_of_ne_nil _ _
      (List.append_ne_nil_of_right_ne_nil d1 (by simp))
      (matchTriple_comma d1 d2 ⟨hne1, hdig1⟩ ⟨hne2, hdig2⟩)
  have hfilter : (d1 ++ ',' :: d2).filter (fun c => c ≠ ',') =
      d1 ++ d2 := by
    rw [List.filter_append, List.filter_cons]
    rw [if_neg (by simp)]
    rw [List.filter_eq_self.mpr fun c hc => by
        simpa using digit_ne c ',' (hdig1 c hc) (by decide),
      List.filter_eq_self.mpr fun c hc => by
        simpa using digit_ne c ',' (hdig2 c hc) (by decide)]
  have hc4 : charsContains ['-'] (d1 ++ d2) = false :=
    contains_digits_false '-' [] _ (by decide) hdig12
  have hfloat := parseFloatQ_digits _ hdig12
  have hne12 : d1 ++ d2 ≠ [] :=
    List.append_ne_nil_of_left_ne_nil hne1 _
  simp only [parsePrice, if_neg hmkne, htl, hmap, htrim, hfind, hfilter,
    hc4, hfloat]
  simp [jsTrim, hne12, hfloat]

lemma parsePrice_range (d1 d2 : List Char) (h1 : digitsNE d1)
    (h2 : digitsNE d2) :
    parsePrice (String.mk (d1 ++ '-' :: d2)) =
      (some (natOfDigits d1 : ℚ), some "-") := by
  obtain ⟨hne1, hdig1⟩ := h1
  obtain ⟨hne2, hdig2⟩ := h2
  have hmkne : String.mk (d1 ++ '-' :: d2) ≠ "" := fun he => by
    have := congrArg String.data he
    exact List.append_ne_nil_of_right_ne_nil d1 (by simp) this
  have htl : (String.mk (d1 ++ '-' :: d2)).toList = d1 ++ '-' :: d2 := rfl
  have hmap : ((d1 ++ '-' :: d2).map
      fun c => if c = nbspChar then ' ' else c) = d1 ++ '-' :: d2 :=
    map_nbsp_fixed _ (mem_append_cons_ne d1 d2 '-' nbspChar hdig1 hdig2
      (by decide) (by decide))
  have htrim : jsTrim (d1 ++ '-' :: d2) = d1 ++ '-' :: d2 := by
    refine jsTrim_no_ws _ fun c hc => ?_
    rcases List.mem_append.mp hc with h | h
    · exact digit_not_ws c (hdig1 c h)
    · rcases List.mem_cons.mp h with h | h
      · rw [h]
        rfl
      · exact digit_not_ws c (hdig2 c h)
  have hfind : findTriple (d1 ++ '-' :: d2) = some ([], d1, ['-']) :=
    findTriple_of_ne_nil _ _
      (List.append_ne_nil_of_right_ne_nil d1 (by simp))
      (matchTriple_range d1 d2 ⟨hne1, hdig1⟩ ⟨hne2, hdig2⟩)
  have hlow : lowerL (d1 ++ '-' :: d2) = d1 ++ '-' :: d2 := by
    have h1' := lowerL_digits d1 hdig1
    have h2' := lowerL_digits d2 hdig2
    simp only [lowerL] at h1' h2' ⊢
    rw [List.map_append, List.map_cons, h1', h2',
      show ('-' : Char).toLower = '-' from by decide]
  have hz1 : charsContains "₹".toList (d1 ++ '-' :: d2) = false :=
    charsContains_head_notmem '₹' [] _
      (mem_append_cons_ne d1 d2 '-' '₹' hdig1 hdig2 (by decide)
        (by decide))
  have hz2 : charsContains "rs.".toList (d1 ++ '-' :: d2) = false :=
    charsContains_head_notmem 'r' ['s', '.'] _
      (mem_append_cons_ne d1 d2 '-' 'r' hdig1 hdig2 (by decide)
        (by decide))
  have hz3 : charsContains "inr".toList (d1 ++ '-' :: d2) = false :=
    charsContains_head_notmem 'i' ['n', 'r'] _
      (mem_append_cons_ne d1 d2 '-' 'i' hdig1 hdig2 (by decide)
        (by decide))
  have hfilter : d1.filter (fun c => c ≠ ',') = d1 :=
    List.filter_eq_self.mpr fun c hc => by
      simpa using digit_ne c ',' (hdig1 c hc) (by decide)
  have hc4 : charsContains ['-'] d1 = false :=
    contains_digits_false '-' [] _ (by decide) hdig1
  have hfloat := parseFloatQ_digits _ hdig1
  have hne4 : ¬ (['-'] : List Char) = ['₹'] := by decide
  have hne5 : charsContains ['r', 's'] (lowerL ['-']) = false := by decide
  have htn : jsTrim ([] : List Char) = [] := rfl
  have ht3 : jsTrim ['-'] = (['-'] : List Char) := by decide
  simp only [parsePrice, if_neg hmkne, htl, hmap, htrim, hfind, hlow,
    hz1, hz2, hz3, hfilter, hc4, hfloat, htn, ht3]
  simp [hne1, hne4, hne5, hfloat]

lemma contains_two_single_false (a b : Char) (r : List Char) (x : Char) :
    charsContains (a :: b :: r) [x] = false := by
  simp [charsContains, charsAgree]

lemma contains_single_append_self (c : Char) (l : List Char) :
    charsContains [c] (l ++ [c]) = true := by
  induction l with
  | nil => simp [charsContains, charsAgree]
  | cons x t ih => simp [charsContains, ih]

lemma lowerL_cons_digits (c : Char) (d : List Char)
    (hd : ∀ x ∈ d, x.isDigit = true) :
    lowerL (c :: d) = c.toLower :: d := by
  have h := lowerL_digits d hd
  simp only [lowerL] at h ⊢
  rw [List.map_cons, h]

lemma lowerL_digits_append (d : List Char) (c : Char)
    (hd : ∀ x ∈ d, x.isDigit = true) :
    lowerL (d ++ [c]) = d ++ [c.toLower] := by
  have h := lowerL_digits d hd
  simp only [lowerL] at h ⊢
  rw [List.map_append, h, List.map_cons, List.map_nil]

lemma parsePrice_lead (c : Char) (d : List Char) (hc : isOtherC c = true)
    (hws : isWsC c = false) (hnb : c ≠ nbspChar) (hd : digitsNE d) :
    (parsePrice (String.mk (c :: d))).2 = some (String.mk [c]) := by
  obtain ⟨hne, hdig⟩ := hd
  have hmkne : String.mk (c :: d) ≠ "" := fun he => by
    simpa using congrArg String.data he
  have htl : (String.mk (c :: d)).toList = c :: d := rfl
  have hmap : ((c :: d).map fun x => if x = nbspChar then ' ' else x) =
      c :: d := by
    refine map_nbsp_fixed _ fun x hx => ?_
    rcases List.mem_cons.mp hx with h | h
    · rw [h]
      exact hnb
    · exact digit_ne x nbspChar (hdig x h) (by decide)
  have htrim : jsTrim (c :: d) = c :: d := by
    refine jsTrim_no_ws _ fun x hx => ?_
    rcases List.mem_cons.mp hx with h | h
    · rw [h]
      exact hws
    · exact digit_not_ws x (hdig x h)
  have hfind : findTriple (c :: d) = some ([c], d, []) :=
    findTriple_of_ne_nil _ _ (by simp)
      (matchTriple_lead c d hc ⟨hne, hdig⟩)
  have ht1 : jsTrim [c] = [c] :=
    jsTrim_no_ws _ fun x hx => by
      rw [show x = c by simpa using hx]
      exact hws
  have hlowc : lowerL (c :: d) = c.toLower :: d := lowerL_cons_digits c d hdig
  have hrs2 : charsContains ['r', 's'] (lowerL [c]) = false := by
    rw [show lowerL [c] = [c.toLower] from rfl]
    exact contains_two_single_false 'r' 's' [] c.toLower
  by_cases hcr : c = '₹'
  · subst hcr
    have hz1 : charsContains "₹".toList ('₹' :: d) = true := by
      simp [charsContains, charsAgree]
    simp only [parsePrice, if_neg hmkne, htl, hmap, htrim, hfind, ht1,
      hz1, hlowc, hrs2]
    simp
  · have hz1 : charsContains "₹".toList (c :: d) = false := by
      refine charsContains_head_notmem '₹' [] _ fun x hx => ?_
      rcases List.mem_cons.mp hx with h | h
      · rw [h]
        exact fun hh => hcr hh
      · exact digit_ne x '₹' (hdig x h) (by decide)
    have hz2 : charsContains "rs.".toList (lowerL (c :: d)) = false := by
      rw [hlowc]
      exact charsContains_two_cons_false 'r' 's' ['.'] c.toLower d hdig
        (by decide) (by decide)
    have hz3 : charsContains "inr".toList (lowerL (c :: d)) = false := by
      rw [hlowc]
      exact charsContains_two_cons_false 'i' ['n', 'r'].head! ['r']
        c.toLower d hdig (by decide) (by decide)
    have hcrl : ¬ ([c] : List Char) = ['₹'] := by
      simpa using hcr
    simp only [parsePrice, if_neg hmkne, htl, hmap, htrim, hfind, ht1,
      hz1, hz2, hz3, hrs2, hcrl]
    simp [hcrl, hrs2]

lemma parsePrice_trail (d : List Char) (c : Char) (hd : digitsNE d)
    (hc : isOtherC c = true) (hws : isWsC c = false)
    (hnb : c ≠ nbspChar) :
    (parsePrice (String.mk (d ++ [c]))).2 = some (String.mk [c]) := by
  obtain ⟨hne, hdig⟩ := hd
  have happne : d ++ [c] ≠ [] :=
    List.append_ne_nil_of_right_ne_nil d (by simp)
  have hmkne : String.mk (d ++ [c]) ≠ "" := fun he =>
    happne (congrArg String.data he)
  have htl : (String.mk (d ++ [c])).toList = d ++ [c] := rfl
  have hmem : ∀ x ∈ d ++ [c], x.isDigit = true ∨ x = c := by
    intro x hx
    rcases List.mem_append.mp hx with h | h
    · exact Or.inl (hdig x h)
    · exact Or.inr (by simpa using h)
  have hmap : ((d ++ [c]).map fun x => if x = nbspChar then ' ' else x) =
      d ++ [c] := by
    refine map_nbsp_fixed _ fun x hx => ?_
    rcases hmem x hx with h | h
    · exact digit_ne x nbspChar h (by decide)
    · rw [h]
      exact hnb
  have htrim : jsTrim (d ++ [c]) = d ++ [c] := by
    refine jsTrim_no_ws _ fun x hx => ?_
    rcases hmem x hx with h | h
    · exact digit_not_ws x h
    · rw [h]
      exact hws
  have hfind : findTriple (d ++ [c]) = some ([], d, [c]) :=
    findTriple_of_ne_nil _ _ happne
      (matchTriple_trail d c ⟨hne, hdig⟩ hc)
  have htn : jsTrim ([] : List Char) = [] := rfl
  have ht3 : jsTrim [c] = [c] :=
    jsTrim_no_ws _ fun x hx => by
      rw [show x = c by simpa using hx]
      exact hws
  have hlow : lowerL (d ++ [c]) = d ++ [c.toLower] :=
    lowerL_digits_append d c hdig
  have hrs2 : charsContains ['r', 's'] (lowerL [c]) = false := by
    rw [show lowerL [c] = [c.toLower] from rfl]
    exact contains_two_single_false 'r' 's' [] c.toLower
  by_cases hcr : c = '₹'
  · subst hcr
    have hz1 : charsContains "₹".toList (d ++ ['₹']) = true :=
      contains_single_append_self '₹' d
    simp only [parsePrice, if_neg hmkne, htl, hmap, htrim, hfind, htn,
      ht3, hz1, hrs2]
    simp
  · have hz1 : charsContains "₹".toList (d ++ [c]) = false := by
      refine charsContains_head_notmem '₹' [] _ fun x hx => ?_
      rcases hmem x hx with h | h
      · exact digit_ne x '₹' h (by decide)
      · rw [h]
        exact fun hh => hcr hh
    have hz2 : charsContains "rs.".toList (lowerL (d ++ [c])) = false := by
      rw [hlow]
      exact charsContains_two_append_false 'r' 's' ['.'] d c.toLower hdig
        (by decide) (by decide)
    have hz3 : charsContains "inr".toList (lowerL (d ++ [c])) = false := by
      rw [hlow]
      exact charsContains_two_append_false 'i' 'n' ['r'] d c.toLower hdig
        (by decide) (by decide)
    have hcrl : ¬ ([c] : List Char) = ['₹'] := by
      simpa using hcr
    simp only [parsePrice, if_neg hmkne, htl, hmap, htrim, hfind, htn,
      ht3, hz1, hz2, hz3, hrs2, hcrl]
    simp [hcrl, hrs2]

/-- C9 (amended): price parsing strips thousands separators before
converting the numeric value, and takes the lower bound of a bounded
hyphenated range as the price.  It reports as "currency" whatever
non-numeric run is adjacent to the number — before or after it — and
falls back to the configured `$` only when the number is bounded by
neither, so a bare hyphenated range like `"100-200"` yields the hyphen
`"-"` as its currency rather than the fallback. -/
theorem C9_parsePrice_separators_symbols_ranges :
    (∀ d, digitsNE d →
      parsePrice (String.mk d) = (some (natOfDigits d : ℚ), some "$")) ∧
    (∀ d1 d2, digitsNE d1 → digitsNE d2 →
      (parsePrice (String.mk (d1 ++ ',' :: d2))).1 =
        some (natOfDigits (d1 ++ d2) : ℚ)) ∧
    (∀ c d, isOtherC c = true → isWsC c = false → c ≠ nbspChar →
      digitsNE d →
      (parsePrice (String.mk (c :: d))).2 = some (String.mk [c])) ∧
    (∀ d c, digitsNE d → isOtherC c = true → isWsC c = false →
      c ≠ nbspChar →
      (parsePrice (String.mk (d ++ [c]))).2 = some (String.mk [c])) ∧
    (∀ d1 d2, digitsNE d1 → digitsNE d2 →
      parsePrice (String.mk (d1 ++ '-' :: d2)) =
        (some (natOfDigits d1 : ℚ), some "-")) :=
  ⟨parsePrice_digits, parsePrice_comma, parsePrice_lead,
   parsePrice_trail, parsePrice_range⟩

/-- C9 counterexample: the bounded hyphenated range `"100-200"` contains
no currency symbol, yet `parsePrice` returns the hyphen `"-"` as the
detected currency instead of the configured fallback `"$"` (the price
is the lower bound `100`, as claimed). -/
theorem C9_counterexample_range_gets_hyphen_currency :
    parsePrice "100-200" = (some 100, some "-") ∧
    (parsePrice "100-200").2 ≠ some "$" := by
  have h := parsePrice_range ['1', '0', '0'] ['2', '0', '0']
    ⟨by decide, by decide⟩ ⟨by decide, by decide⟩
  have hs : String.mk (['1', '0', '0'] ++ '-' :: ['2', '0', '0']) =
      "100-200" := rfl
  rw [hs] at h
  have hn : (natOfDigits ['1', '0', '0'] : ℚ) = 100 := by
    rw [show natOfDigits ['1', '0', '0'] = 100 from by decide]
    norm_num
  rw [hn] at h
  exact ⟨h, by rw [h]; simp⟩

/-- Witness for C9 at concrete strings: a bare number, a
comma-separated number, leading and trailing symbols, and a range. -/
theorem C9_parsePrice_separators_symbols_ranges_witness :
    parsePrice "42" = (some (natOfDigits ['4', '2'] : ℚ), some "$") ∧
    (parsePrice "1,25").1 = some (natOfDigits (['1'] ++ ['2', '5']) : ℚ) ∧
    (parsePrice "$99").2 = some "$" ∧
    (parsePrice "99€").2 = some "€" ∧
    parsePrice "100-200" =
      (some (natOfDigits ['1', '0', '0'] : ℚ), some "-") :=
  ⟨C9_parsePrice_separators_symbols_ranges.1 ['4', '2']
      ⟨by decide, by decide⟩,
   C9_parsePrice_separators_symbols_ranges.2.1 ['1'] ['2', '5']
      ⟨by decide, by decide⟩ ⟨by decide, by decide⟩,
   C9_parsePrice_separators_symbols_ranges.2.2.1 '$' ['9', '9']
      (by decide) (by decide) (by decide) ⟨by decide, by decide⟩,
   C9_parsePrice_separators_symbols_ranges.2.2.2.1 ['9', '9'] '€'
      ⟨by decide, by decide⟩ (by decide) (by decide) (by decide),
   C9_parsePrice_separators_symbols_ranges.2.2.2.2 ['1', '0', '0']
      ['2', '0', '0'] ⟨by decide, by decide⟩ ⟨by decide, by decide⟩⟩
